import Mathlib

/-!
Shallow embedding of the claude-monitor log-tailing engine:
`src/sessionManager.js` (the in-memory session store and its mutators),
`src/fileWatcher.js` (offset tracking, record classification, startup scan)
and `src/streamParser.js` (the stream-chunk dispatcher, including its
`error` case).

Modelling conventions, stated once:
* JavaScript `Date.now()` is an explicit `now : Nat` argument threaded into
  every operation that reads the clock; `new Date().toISOString()` is modelled
  as `toString now` (an injective rendering of the same clock — no claim
  inspects the textual format).
* JS string falsiness (`!s`) is `s = ""`; JS `x || 0` on an optional numeric
  field is `Option.getD 0`; `initialTimestamp || Date.now()` treats `0` as
  falsy exactly as JS does.
* File contents are modelled as ASCII strings, so the byte size reported by
  `statSync` coincides with `String.length` and `substring` with `String.drop`
  (the JS code itself indexes a byte offset into a UTF-16 string, which only
  agrees under the same assumption).
* `JSON.parse` of a log line is an abstract `decode : String → Option Record`
  parameter: `none` models a parse failure (the catch-and-skip branch).
* `notifyChange` only fans events out to external listeners and never mutates
  a session, so listeners are not part of the state.
* Configured limits come from `parseInt(env) || default`; `0` and `NaN` are
  falsy in JS so the effective caps and thresholds are the defaults unless a
  positive integer is supplied — they are modelled as `Nat` fields of `Config`,
  and the effective message cap is never `0`.
-/

/-- Configuration constants of `sessionManager.js` / `fileWatcher.js`
    (`SESSION_TIMEOUT_MS`, `MAX_TOOL_HISTORY`, `MAX_MESSAGES`,
    `IDLE_THRESHOLD_MS`, `MAX_FILE_AGE_MS`), defaults 300000 / 10 / 20 /
    30000 / 600000. -/
structure Config where
  sessionTimeoutMs : Nat := 300000
  maxToolHistory : Nat := 10
  maxMessages : Nat := 20
  idleThresholdMs : Nat := 30000
  maxFileAgeMs : Nat := 600000
deriving Repr, DecidableEq

/-- JS `Array.prototype.slice(-n)`: for `n = 0` JS evaluates `slice(0)` and
    returns the whole array; for `n > 0` it keeps the last `n` elements. -/
def jsSliceNeg (l : List α) (n : Nat) : List α :=
  if n = 0 then l else l.drop (l.length - n)

/-- JS `String.prototype.includes` (substring containment). -/
def listIncludes (t : List Char) : List Char → Bool
  | [] => t.isPrefixOf []
  | c :: cs => t.isPrefixOf (c :: cs) || listIncludes t cs

def strIncludes (s t : String) : Bool :=
  listIncludes t.toList s.toList

/-- JS `String.prototype.endsWith` (suffix test). -/
def strEndsWith (s t : String) : Bool :=
  t.data.isSuffixOf s.data

/-- String prefix test (used to express what a recursive scan would reach). -/
def strStartsWith (s t : String) : Bool :=
  t.data.isPrefixOf s.data

/-- `SessionManager.truncate`. -/
def truncate (str : String) (maxLength : Nat := 100) : String :=
  if str = "" then ""
  else if str.length ≤ maxLength then str
  else str.take maxLength ++ "..."

/-- `session.tokens`. -/
structure Tokens where
  input : Nat := 0
  output : Nat := 0
  cacheRead : Nat := 0
  cacheCreation : Nat := 0
  total : Nat := 0
deriving Repr, DecidableEq

/-- The `message.usage` payload of an assistant record
    (`input_tokens` etc., each possibly absent — JS `|| 0`). -/
structure Usage where
  input_tokens : Option Nat := none
  output_tokens : Option Nat := none
  cache_read_input_tokens : Option Nat := none
  cache_creation_input_tokens : Option Nat := none
deriving Repr, DecidableEq

/-- `session.currentTool`: name, startTime, status "running", plus the spread
    `details`.  The `details` of every caller (`extractToolDetails` output plus
    `toolId`/`timestamp`) uses keys disjoint from `name`/`startTime`/`status`,
    so the extra keys are kept as a key-value list whose values are optional
    strings (an absent value models a key assigned JS `undefined`; the one
    numeric detail, `count`, is rendered in decimal). -/
structure ToolExec where
  name : String
  startTime : Nat
  status : String
  details : List (String × Option String) := []
deriving Repr, DecidableEq

/-- Detail key-value lists attached to tool executions. -/
abbrev Details := List (String × Option String)

/-- One `toolHistory` entry: name, duration, status, completedAt, plus the
    spread `details`. -/
structure HistoryEntry where
  name : String
  duration : Nat
  status : String
  completedAt : Nat
  details : Details := []
deriving Repr, DecidableEq

/-- One `session.messages` entry. -/
structure Message where
  role : String
  content : String
  timestamp : String
  id : Nat
deriving Repr, DecidableEq

/-- One session object, as built by `getOrCreateSession` plus the fields the
    mutators add later (`prompt`, `todos`).  `estimatedCost` is a JS float
    computed by exact `(input*rate + output*rate)/1e6` arithmetic; it is
    modelled in `ℚ` where that arithmetic is exact. -/
structure Session where
  id : String
  startTime : Nat
  lastActivity : Nat
  status : String
  currentTool : Option ToolExec := none
  toolHistory : List HistoryEntry := []
  model : Option String := none
  modelShort : Option String := none
  cwd : Option String := none
  version : Option String := none
  gitBranch : Option String := none
  tokens : Tokens := {}
  estimatedCost : ℚ := 0
  messages : List Message := []
  parentSessionId : Option String := none
  agentId : Option String := none
  subAgents : List String := []
  isSubAgent : Bool := false
  prompt : Option String := none
  todos : Option String := none
deriving Repr, DecidableEq

/-- The `SessionManager` state: `sessions` is a JS `Map` (insertion-ordered,
    unique keys) modelled as an association list, `agentToSession` likewise. -/
structure Store where
  sessions : List (String × Session) := []
  agentToSession : List (String × String) := []
deriving Repr, DecidableEq

def Store.lookup (st : Store) (sid : String) : Option Session :=
  (st.sessions.find? (fun p => p.1 = sid)).map Prod.snd

/-- Replace the value at a key of an association list (no-op when absent). -/
def setAssoc (l : List (String × α)) (k : String) (v : α) : List (String × α) :=
  l.map (fun p => if p.1 = k then (k, v) else p)

/-- JS `Map.set`: overwrite in place when present, append otherwise. -/
def mapSet (l : List (String × α)) (k : String) (v : α) : List (String × α) :=
  if (l.find? (fun p => p.1 = k)).isSome then setAssoc l k v else l ++ [(k, v)]

def Store.update (st : Store) (sid : String) (f : Session → Session) : Store :=
  { st with sessions := st.sessions.map (fun p => if p.1 = sid then (sid, f p.2) else p) }

/-- The fresh session literal of `getOrCreateSession`. -/
def newSession (sessionId : String) (timestamp : Nat) : Session :=
  { id := sessionId, startTime := timestamp, lastActivity := timestamp,
    status := "active" }

/-- `SessionManager.getOrCreateSession(sessionId, initialTimestamp)`.
    JS `initialTimestamp || Date.now()`: `some 0` is falsy. -/
def getOrCreateSession (st : Store) (sessionId : String)
    (initialTimestamp : Option Nat) (now : Nat) : Store :=
  if (st.lookup sessionId).isSome then
    if initialTimestamp.getD 0 = 0 then
      st.update sessionId (fun s => { s with lastActivity := now })
    else st
  else
    let timestamp := if initialTimestamp.getD 0 = 0 then now else initialTimestamp.getD 0
    { st with sessions := st.sessions ++ [(sessionId, newSession sessionId timestamp)] }

/-- `SessionManager.parseModelName`. -/
def parseModelName (model : String) : Option String :=
  if model = "" then none
  else
    let modelLower := model.toLower
    if strIncludes modelLower "opus" then some "Opus 4.5"
    else if strIncludes modelLower "sonnet" then some "Sonnet 4.5"
    else if strIncludes modelLower "haiku" then some "Haiku 4.5"
    else some (String.intercalate " " (((model.splitOn "-").drop 1).take 2))

/-- `MODEL_PRICING` (per 1M tokens) with the "default" fallback. -/
def modelPricing (modelShort : Option String) : ℚ × ℚ :=
  match modelShort with
  | some "Opus 4.5" => (15, 75)
  | some "Sonnet 4.5" => (3, 15)
  | some "Haiku 4.5" => ((1 : ℚ) / 4, (5 : ℚ) / 4)
  | _ => (3, 15)

/-- `SessionManager.estimateCost`. -/
def estimateCost (s : Session) : ℚ :=
  let rates := modelPricing s.modelShort
  (s.tokens.input : ℚ) * rates.1 / 1000000 + (s.tokens.output : ℚ) * rates.2 / 1000000

/-- `SessionManager.updateModelInfo(sessionId, model, version)`. -/
def updateModelInfo (st : Store) (sessionId : String) (model : String)
    (version : Option String) (now : Nat) : Store :=
  let st := getOrCreateSession st sessionId none now
  st.update sessionId (fun s =>
    let s := if model ≠ "" ∧ s.model = none then
        { s with model := some model, modelShort := parseModelName model }
      else s
    if (version.getD "") ≠ "" ∧ s.version = none then
      { s with version := version } else s)

/-- `SessionManager.updateCwd`. -/
def updateCwd (st : Store) (sessionId : String) (cwd : String) (now : Nat) : Store :=
  let st := getOrCreateSession st sessionId none now
  st.update sessionId (fun s =>
    if cwd ≠ "" ∧ s.cwd = none then { s with cwd := some cwd } else s)

/-- `SessionManager.updateGitBranch`. -/
def updateGitBranch (st : Store) (sessionId : String) (branch : String) (now : Nat) : Store :=
  let st := getOrCreateSession st sessionId none now
  st.update sessionId (fun s =>
    if branch ≠ "" ∧ s.gitBranch = none then { s with gitBranch := some branch } else s)

/-- `SessionManager.updateTokenUsage(sessionId, usage)` — note `+=`:
    the counters are cumulative, and `total` is recomputed as
    `input + output` after the increments. -/
def updateTokenUsage (st : Store) (sessionId : String) (usage : Option Usage)
    (now : Nat) : Store :=
  match st.lookup sessionId, usage with
  | some _, some u =>
    st.update sessionId (fun s =>
      let tks : Tokens :=
        { input := s.tokens.input + u.input_tokens.getD 0,
          output := s.tokens.output + u.output_tokens.getD 0,
          cacheRead := s.tokens.cacheRead + u.cache_read_input_tokens.getD 0,
          cacheCreation := s.tokens.cacheCreation + u.cache_creation_input_tokens.getD 0,
          total := 0 }
      let tks := { tks with total := tks.input + tks.output }
      let s := { s with tokens := tks }
      { s with estimatedCost := estimateCost s, lastActivity := now })
  | _, _ => st

/-- `SessionManager.addMessage(sessionId, role, content, timestamp)`.
    The duplicate check compares the *stored* (truncated) content of the last
    message with the *raw* incoming content. -/
def addMessage (cfg : Config) (st : Store) (sessionId role content : String)
    (timestamp : Option String) (now : Nat) : Store :=
  match st.lookup sessionId with
  | none => st
  | some s =>
    if content = "" then st
    else
      match s.messages.getLast? with
      | some lastMsg =>
        if lastMsg.content = content ∧ lastMsg.role = role then st
        else addMessageStore cfg st sessionId role content timestamp now
      | none => addMessageStore cfg st sessionId role content timestamp now
where
  /-- The push + trim + touch tail of `addMessage` (after the guards). -/
  addMessageStore (cfg : Config) (st : Store) (sessionId role content : String)
      (timestamp : Option String) (now : Nat) : Store :=
    st.update sessionId (fun s =>
      let msgs := s.messages ++
        [{ role := role, content := truncate content 1000,
           timestamp := if (timestamp.getD "") = "" then toString now else timestamp.getD "",
           id := now }]
      let msgs := if msgs.length > cfg.maxMessages then jsSliceNeg msgs cfg.maxMessages else msgs
      { s with messages := msgs, lastActivity := now })

/-- `SessionManager.linkSubAgent(parentSessionId, agentId)` — silently does
    nothing when the parent session does not exist. -/
def linkSubAgent (st : Store) (parentSessionId agentId : String) : Store :=
  match st.lookup parentSessionId with
  | none => st
  | some parent =>
    if agentId ∈ parent.subAgents then st
    else st.update parentSessionId (fun p => { p with subAgents := p.subAgents ++ [agentId] })

/-- The creation half of `createSubAgent`: create the session keyed by the
    agent id, set the linkage fields, and record the `agentToSession` entry. -/
def createSubAgentCore (st : Store) (agentId parentSessionId : String) (now : Nat) : Store :=
  let st := getOrCreateSession st agentId none now
  let st := st.update agentId (fun s =>
    { s with agentId := some agentId, parentSessionId := some parentSessionId,
             isSubAgent := true })
  { st with agentToSession := mapSet st.agentToSession agentId agentId }

/-- `SessionManager.createSubAgent(agentId, parentSessionId, isSidechain)` —
    a complete no-op when a session keyed by `agentId` already exists;
    otherwise create, mark and map the sub-agent, then link to the parent. -/
def createSubAgent (st : Store) (agentId parentSessionId : String) (now : Nat) : Store :=
  match st.lookup agentId with
  | some _ => st
  | none =>
    linkSubAgent (createSubAgentCore st agentId parentSessionId now)
      parentSessionId agentId

/-- `SessionManager.completeTool(sessionId, toolName, status, details)`. -/
def completeTool (cfg : Config) (st : Store) (sessionId toolName status : String)
    (details : Details) (now : Nat) : Store :=
  match st.lookup sessionId with
  | none => st
  | some s =>
    match s.currentTool with
    | none => st
    | some ct =>
      st.update sessionId (fun s =>
        let entry : HistoryEntry :=
          { name := toolName, duration := now - ct.startTime, status := status,
            completedAt := now, details := details }
        let hist := entry :: s.toolHistory
        let hist := if hist.length > cfg.maxToolHistory then hist.take cfg.maxToolHistory else hist
        { s with toolHistory := hist, currentTool := none, lastActivity := now })

/-- `SessionManager.startTool(sessionId, toolName, details)`. -/
def startTool (cfg : Config) (st : Store) (sessionId toolName : String)
    (details : Details) (now : Nat) : Store :=
  let st := getOrCreateSession st sessionId none now
  let st :=
    match st.lookup sessionId with
    | some s =>
      match s.currentTool with
      | some ct => if ct.status = "running" then completeTool cfg st sessionId ct.name "completed" [] now else st
      | none => st
    | none => st
  st.update sessionId (fun s =>
    { s with currentTool := some { name := toolName, startTime := now,
                                   status := "running", details := details },
             status := "active", lastActivity := now })

/-- `SessionManager.completeSession(sessionId)`. -/
def completeSession (cfg : Config) (st : Store) (sessionId : String) (now : Nat) : Store :=
  match st.lookup sessionId with
  | none => st
  | some s =>
    let st :=
      match s.currentTool with
      | some ct => if ct.status = "running" then completeTool cfg st sessionId ct.name "completed" [] now else st
      | none => st
    st.update sessionId (fun s => { s with status := "completed", lastActivity := now })

/-- `SessionManager.updateSessionStatus(sessionId, status)` — no tool closing. -/
def updateSessionStatus (st : Store) (sessionId status : String) (now : Nat) : Store :=
  match st.lookup sessionId with
  | none => st
  | some _ => st.update sessionId (fun s => { s with status := status, lastActivity := now })

/-- `SessionManager.updateSessionPrompt`. -/
def updateSessionPrompt (st : Store) (sessionId prompt : String) (now : Nat) : Store :=
  let st := getOrCreateSession st sessionId none now
  st.update sessionId (fun s => { s with prompt := some prompt, lastActivity := now })

/-- `SessionManager.updateTodos`. -/
def updateTodos (st : Store) (sessionId todos : String) (now : Nat) : Store :=
  match st.lookup sessionId with
  | none => st
  | some _ => st.update sessionId (fun s => { s with todos := some todos, lastActivity := now })

/-- `SessionManager.cleanupStaleSessions` — the staleness sweep: removal when
    `inactiveTime > SESSION_TIMEOUT_MS` (strict), idling when the session is
    active, has no open tool, and `inactiveTime > IDLE_THRESHOLD_MS` (strict).
    `now - lastActivity` is truncated `Nat` subtraction (the clock never runs
    backwards in the source). -/
def cleanupStaleSessions (cfg : Config) (st : Store) (now : Nat) : Store :=
  { st with sessions := st.sessions.filterMap (fun p =>
      let s := p.2
      let inactiveTime := now - s.lastActivity
      if inactiveTime > cfg.sessionTimeoutMs then none
      else if s.status = "active" ∧ s.currentTool = none ∧ inactiveTime > cfg.idleThresholdMs then
        some (p.1, { s with status := "idle" })
      else some p) }

/-- `SessionManager.getAllSessions`. -/
def getAllSessions (st : Store) : List Session :=
  st.sessions.map Prod.snd

/-- `SessionManager.getActiveSessions`. -/
def getActiveSessions (st : Store) : List Session :=
  (getAllSessions st).filter (fun s => s.status = "active")

/-! ## fileWatcher.js -/

/-- The `input` object of a tool-invocation block: the fields every
    `extractToolDetails` case reads. -/
structure ToolInput where
  command : Option String := none
  file_path : Option String := none
  new_string : Option String := none
  pattern : Option String := none
  path : Option String := none
  description : Option String := none
  subagent_type : Option String := none
  url : Option String := none
  query : Option String := none
  todos : Option (List String) := none
deriving Repr, DecidableEq

/-- A content block of an assistant message (`message.content[]`):
    a `type` discriminator plus the fields the watcher reads
    (`text` for text blocks; `name`, `id`, `input` for tool blocks). -/
structure ContentBlock where
  btype : String
  text : Option String := none
  name : Option String := none
  id : Option String := none
  input : ToolInput := {}
deriving Repr, DecidableEq

/-- `message.content` is either a plain string (user prompt) or an array of
    content blocks (assistant message). -/
inductive MsgContent where
  | str (s : String)
  | blocks (bs : List ContentBlock)
deriving Repr, DecidableEq

/-- The `message` payload of a record. -/
structure RecMessage where
  content : Option MsgContent := none
  model : Option String := none
  usage : Option Usage := none
deriving Repr, DecidableEq

/-- One decoded log line (`JSON.parse` of one JSONL record): the fields
    `processMessage` and its handlers read. -/
structure Record where
  rtype : Option String := none
  sessionId : Option String := none
  agentId : Option String := none
  timestamp : Option String := none
  cwd : Option String := none
  gitBranch : Option String := none
  version : Option String := none
  isSidechain : Option Bool := none
  message : Option RecMessage := none
  is_error : Option Bool := none
  operation : Option String := none
deriving Repr, DecidableEq

/-- JS truthiness of a possibly-absent string. -/
def truthyS (o : Option String) : Bool := o.getD "" ≠ ""

/-- `FileWatcher.extractToolDetails(toolName, input)`.
    `this.truncate(undefined, n)` returns `""`. -/
def extractToolDetails (toolName : String) (input : ToolInput) : Details :=
  match toolName with
  | "Bash" => [("command", some (truncate (input.command.getD "") 100))]
  | "Read" => [("file", input.file_path)]
  | "Edit" => [("file", input.file_path),
               ("preview", some (truncate (input.new_string.getD "") 50))]
  | "Write" => [("file", input.file_path)]
  | "Glob" => [("pattern", input.pattern), ("path", input.path)]
  | "Grep" => [("pattern", input.pattern), ("path", input.path)]
  | "Task" => [("description", some (truncate (input.description.getD "") 100)),
               ("agentType", input.subagent_type)]
  | "WebFetch" => [("url", input.url)]
  | "WebSearch" => [("query", input.query)]
  | "TodoWrite" => [("count", some (toString ((input.todos.map List.length).getD 0)))]
  | _ =>
    (if truthyS input.description then
       [("description", some (truncate (input.description.getD "") 100))] else []) ++
    (if truthyS input.file_path then [("file", input.file_path)] else []) ++
    (if truthyS input.command then
       [("command", some (truncate (input.command.getD "") 100))] else [])

/-- `FileWatcher.handleToolUse`: start a tool with details
    `toolId`, `timestamp`, then the extracted per-tool details. -/
def handleToolUse (cfg : Config) (sessionId : String) (toolUse : ContentBlock)
    (timestamp : Option String) (now : Nat) (st : Store) : Store :=
  let details := ("toolId", toolUse.id) :: ("timestamp", timestamp) ::
    extractToolDetails (toolUse.name.getD "") toolUse.input
  startTool cfg st sessionId (toolUse.name.getD "") details now

/-- `FileWatcher.handleUserMessage`: string content that is non-blank and not
    the literal "Warmup" updates the prompt (first 200 chars) and appends a
    user message. -/
def handleUserMessage (cfg : Config) (sessionId : String) (data : Record)
    (now : Nat) (st : Store) : Store :=
  match data.message.bind RecMessage.content with
  | some (MsgContent.str content) =>
    if content.trim ≠ "" ∧ content ≠ "Warmup" then
      let st := updateSessionPrompt st sessionId (content.take 200) now
      addMessage cfg st sessionId "user" content data.timestamp now
    else st
  | _ => st

/-- The model/version extraction step of `handleAssistantMessage`
    (`if (message?.model) updateModelInfo(...)`). -/
def assistantModelStep (sessionId : String) (data : Record) (now : Nat) (st : Store) : Store :=
  match data.message with
  | some m =>
    if truthyS m.model then updateModelInfo st sessionId (m.model.getD "") data.version now
    else st
  | none => st

/-- The token-usage step of `handleAssistantMessage`
    (`if (message?.usage) updateTokenUsage(...)`). -/
def assistantUsageStep (sessionId : String) (data : Record) (now : Nat) (st : Store) : Store :=
  match data.message with
  | some m =>
    match m.usage with
    | some u => updateTokenUsage st sessionId (some u) now
    | none => st
  | none => st

/-- The content-block loop of `handleAssistantMessage` (text blocks append an
    assistant message, tool_use blocks start a tool). -/
def assistantBlocksStep (cfg : Config) (sessionId : String) (data : Record)
    (timestamp : Option String) (now : Nat) (st : Store) : Store :=
  match data.message.bind RecMessage.content with
  | some (MsgContent.blocks bs) =>
    bs.foldl (fun st block =>
      if block.btype = "text" ∧ truthyS block.text then
        addMessage cfg st sessionId "assistant" (block.text.getD "") timestamp now
      else if block.btype = "tool_use" then
        handleToolUse cfg sessionId block timestamp now st
      else st) st
  | _ => st

/-- `FileWatcher.handleAssistantMessage`: model info (set once), cumulative
    token usage, then the content blocks in order. -/
def handleAssistantMessage (cfg : Config) (sessionId : String) (data : Record)
    (timestamp : Option String) (now : Nat) (st : Store) : Store :=
  assistantBlocksStep cfg sessionId data timestamp now
    (assistantUsageStep sessionId data now (assistantModelStep sessionId data now st))

/-- `FileWatcher.handleToolResult`: completes the tracked current tool using
    the record's error flag; ignored when no tool is open. -/
def handleToolResult (cfg : Config) (sessionId : String) (data : Record)
    (now : Nat) (st : Store) : Store :=
  match st.lookup sessionId with
  | some s =>
    match s.currentTool with
    | some ct =>
      completeTool cfg st sessionId ct.name
        (if data.is_error.getD false then "failed" else "completed") [] now
    | none => st
  | none => st

/-- The sub-agent registration step of `processMessage`
    (`if (isSubAgent && sessionId && agentId) createSubAgent(...)`). -/
def pmSubAgent (data : Record) (isSub : Bool) (now : Nat) (st : Store) : Store :=
  if isSub ∧ truthyS data.sessionId ∧ truthyS data.agentId then
    createSubAgent st (data.agentId.getD "") (data.sessionId.getD "") now
  else st

/-- The cwd / gitBranch metadata step of `processMessage` (applied to any
    record type). -/
def pmMeta (eff : String) (data : Record) (now : Nat) (st : Store) : Store :=
  let st := if truthyS data.cwd then updateCwd st eff (data.cwd.getD "") now else st
  if truthyS data.gitBranch then updateGitBranch st eff (data.gitBranch.getD "") now else st

/-- The `switch (type)` dispatch of `processMessage`. -/
def pmDispatch (cfg : Config) (eff : String) (data : Record) (now : Nat) (st : Store) : Store :=
  match data.rtype.getD "" with
  | "user" => handleUserMessage cfg eff data now st
  | "assistant" => handleAssistantMessage cfg eff data data.timestamp now st
  | "tool_result" => handleToolResult cfg eff data now st
  | "result" => completeSession cfg st eff now
  | "queue-operation" =>
    if data.operation.getD "" = "dequeue" then getOrCreateSession st eff none now
    else st
  | _ => st

/-- The sub-agent classification of `processMessage`: the file path contains
    "/agent-", or both ids are present and differ. -/
def isSubRec (data : Record) (filePath : String) : Bool :=
  strIncludes filePath "/agent-" ||
    (truthyS data.agentId && truthyS data.sessionId &&
      decide (data.agentId.getD "" ≠ data.sessionId.getD ""))

/-- The effective session id of `processMessage`
    (`isSubAgent ? agentId : (sessionId || agentId)`; "" models a missing id). -/
def effId (data : Record) (filePath : String) : String :=
  if isSubRec data filePath then data.agentId.getD ""
  else if truthyS data.sessionId then data.sessionId.getD "" else data.agentId.getD ""

/-- `FileWatcher.processMessage(data, filePath)` — classification plus
    dispatch.  The JS method also records `sessionFiles.set(effectiveId,
    filePath)`; that map (like `fileModTimes`) is written but never read by
    the engine, so it is not part of the state. -/
def processMessage (cfg : Config) (data : Record) (filePath : String)
    (now : Nat) (st : Store) : Store :=
  if effId data filePath = "" then st
  else
    pmDispatch cfg (effId data filePath) data now
      (pmMeta (effId data filePath) data now (pmSubAgent data (isSubRec data filePath) now st))

/-- The record-processing loop of `processNewLines`, at the level of decoded
    records; each record carries the clock value at which it is processed. -/
def processRecords (cfg : Config) (filePath : String) (st : Store)
    (recs : List (Record × Nat)) : Store :=
  recs.foldl (fun st rn => processMessage cfg rn.1 filePath rn.2 st) st

def lookupAssoc (l : List (String × α)) (k : String) : Option α :=
  (l.find? (fun p => p.1 = k)).map Prod.snd

/-- The watcher state that feeds the store: per-file byte offsets
    (`filePositions`) plus the session store itself. -/
structure FW where
  store : Store := {}
  filePositions : List (String × Nat) := []
deriving Repr, DecidableEq

/-- `FileWatcher.processNewLines(filePath)` over a filesystem snapshot
    `fsys : path → content`: stat, shrink check, incremental read, position
    advance, then per-line decode-and-process (decode failures skipped).
    A missing file models the thrown-and-caught stat error. -/
def processNewLines (cfg : Config) (decode : String → Option Record)
    (fsys : List (String × String)) (filePath : String) (now : Nat) (fw : FW) : FW :=
  match lookupAssoc fsys filePath with
  | none => fw
  | some content =>
    let currentSize := content.length
    let lastPosition := (lookupAssoc fw.filePositions filePath).getD 0
    if currentSize < lastPosition then
      { fw with filePositions := mapSet fw.filePositions filePath 0 }
    else if currentSize = lastPosition then fw
    else
      let newContent := content.drop lastPosition
      let fw := { fw with filePositions := mapSet fw.filePositions filePath currentSize }
      let lines := (newContent.splitOn "\n").filter (fun l => l.trim ≠ "")
      { fw with store := lines.foldl (fun st line =>
          match decode line with
          | some data => processMessage cfg data filePath now st
          | none => st) fw.store }

/-! ### Startup scan (`scanExistingSessions`), candidate selection -/

/-- A file of the filesystem tree, with the stat fields the scan reads. -/
structure FileEnt where
  dir : String
  name : String
  mtimeMs : Nat
  size : Nat
deriving Repr, DecidableEq

def insertMtimeDesc (e : FileEnt) : List FileEnt → List FileEnt
  | [] => [e]
  | x :: xs => if e.mtimeMs ≤ x.mtimeMs then x :: insertMtimeDesc e xs else e :: x :: xs

/-- The `.sort((a, b) => b.mtimeMs - a.mtimeMs)` step (a stable sort by
    modification time, most recent first). -/
def sortByMtimeDesc (l : List FileEnt) : List FileEnt :=
  l.foldr insertMtimeDesc []

/-- The candidate pipeline of `scanExistingSessions`:
    `readdirSync(PROJECTS_DIR)` lists only the immediate children of the
    projects root (it does not recurse), `.filter(endsWith ".jsonl")`,
    stat each (the stats ride on `FileEnt`), sort by mtime descending, and
    keep files with `now - mtimeMs < MAX_FILE_AGE_MS`. -/
def scanCandidates (cfg : Config) (projectsDir : String)
    (entries : List FileEnt) (now : Nat) : List FileEnt :=
  let files := entries.filter (fun e => e.dir = projectsDir ∧ strEndsWith e.name ".jsonl")
  let fileStats := sortByMtimeDesc files
  fileStats.filter (fun e => now - e.mtimeMs < cfg.maxFileAgeMs)

/-- A directory lies under a root (the root itself or any nested
    subdirectory) — the reach a recursive scan would have. -/
def underRoot (root dir : String) : Bool :=
  dir = root || strStartsWith dir (root ++ "/")

/-- `scanExistingSessions` marks the most recent file's session active by
    direct field assignment (`session.status = "active"`). -/
def forceActive (st : Store) (sessionId : String) : Store :=
  st.update sessionId (fun s => { s with status := "active" })

/-! ## streamParser.js -/

/-- One stream-json chunk, with the fields `parseStreamChunk` reads
    (`metadata_session_id` stands for `metadata?.session_id`). -/
structure Chunk where
  ctype : Option String := none
  session_id : Option String := none
  sessionId : Option String := none
  metadata_session_id : Option String := none
  content : Option MsgContent := none
  tool_use_id : Option String := none
  is_error : Option Bool := none
deriving Repr, DecidableEq

/-- `streamParser.truncateString` (same string logic as
    `SessionManager.truncate`). -/
def truncateString (str : String) (maxLength : Nat := 100) : String :=
  truncate str maxLength

/-- `streamParser.truncateOutput`: arrays of blocks are joined by newline
    using `c.text || c` (a textless block stringifies as "[object Object]"). -/
def truncateOutput (content : Option MsgContent) (maxLength : Nat := 200) : String :=
  match content with
  | none => ""
  | some (MsgContent.str s) => if s = "" then "" else truncateString s maxLength
  | some (MsgContent.blocks bs) =>
    truncateString (String.intercalate "\n"
      (bs.map (fun c => if truthyS c.text then c.text.getD "" else "[object Object]"))) maxLength

/-- `streamParser.extractToolDetails` (differs from the watcher's version:
    no Edit preview, no Glob/Grep path, raw Task description, no TodoWrite). -/
def spExtractToolDetails (toolName : String) (input : ToolInput) : Details :=
  match toolName with
  | "Bash" => [("command", some (truncateString (input.command.getD "") 100))]
  | "Read" => [("file", input.file_path)]
  | "Edit" => [("file", input.file_path)]
  | "Write" => [("file", input.file_path)]
  | "Glob" => [("pattern", input.pattern)]
  | "Grep" => [("pattern", input.pattern)]
  | "Task" => [("description", input.description), ("agentType", input.subagent_type)]
  | "WebFetch" => [("url", input.url)]
  | "WebSearch" => [("query", input.query)]
  | _ =>
    (if truthyS input.description then
       [("description", some (truncateString (input.description.getD "") 100))] else []) ++
    (if truthyS input.file_path then [("file", input.file_path)] else []) ++
    (if truthyS input.command then
       [("command", some (truncateString (input.command.getD "") 100))] else [])

/-- `streamParser.handleToolUse`. -/
def spHandleToolUse (cfg : Config) (sessionId : String) (toolUse : ContentBlock)
    (now : Nat) (st : Store) : Store :=
  let details := ("toolId", toolUse.id) :: spExtractToolDetails (toolUse.name.getD "") toolUse.input
  startTool cfg st sessionId (toolUse.name.getD "") details now

/-- `streamParser.handleToolResult`: tool name from the tracked current tool
    (falsy name falls back to "Unknown"); `completeTool` itself ignores the
    call when no tool is open. -/
def spHandleToolResult (cfg : Config) (sessionId : String) (result : Chunk)
    (now : Nat) (st : Store) : Store :=
  let status := if result.is_error.getD false then "failed" else "completed"
  let rawName :=
    match st.lookup sessionId with
    | some s => (s.currentTool.map ToolExec.name).getD ""
    | none => ""
  let toolName := if rawName = "" then "Unknown" else rawName
  completeTool cfg st sessionId toolName status
    [("toolId", result.tool_use_id), ("output", some (truncateOutput result.content))] now

/-- `streamParser.parseStreamChunk(jsonData, sessionManager)` — the stream
    dispatcher.  Its `error` case is the only call site that sets session
    status "error", via `updateSessionStatus` (no tool closing). -/
def parseStreamChunk (cfg : Config) (jsonData : Chunk) (now : Nat) (st : Store) : Store :=
  let sessionId :=
    if truthyS jsonData.session_id then jsonData.session_id.getD ""
    else if truthyS jsonData.sessionId then jsonData.sessionId.getD ""
    else if truthyS jsonData.metadata_session_id then jsonData.metadata_session_id.getD ""
    else "unknown"
  match jsonData.ctype.getD "" with
  | "init" => getOrCreateSession st sessionId none now
  | "user" => updateSessionStatus st sessionId "active" now
  | "assistant" =>
    match jsonData.content with
    | some (MsgContent.blocks bs) =>
      bs.foldl (fun st block =>
        if block.btype = "tool_use" then spHandleToolUse cfg sessionId block now st
        else st) st
    | _ => st
  | "tool_result" => spHandleToolResult cfg sessionId jsonData now st
  | "result" => completeSession cfg st sessionId now
  | "error" => updateSessionStatus st sessionId "error" now
  | _ => getOrCreateSession st sessionId none now

/-! ## The operation universe

Every mutation path into the store, as invoked by the watcher, the stream
parser, the startup scan and the sweep timer.  Each operation carries the
clock value at which it runs. -/

inductive Op where
  | getOrCreate (sid : String) (initTs : Option Nat) (now : Nat)
  | modelInfo (sid model : String) (version : Option String) (now : Nat)
  | cwdOp (sid cwd : String) (now : Nat)
  | branchOp (sid branch : String) (now : Nat)
  | tokensOp (sid : String) (usage : Option Usage) (now : Nat)
  | msgOp (sid role content : String) (ts : Option String) (now : Nat)
  | subAgentOp (agentId parent : String) (now : Nat)
  | linkOp (parent agentId : String)
  | startToolOp (sid name : String) (details : Details) (now : Nat)
  | completeToolOp (sid name status : String) (details : Details) (now : Nat)
  | completeOp (sid : String) (now : Nat)
  | statusOp (sid status : String) (now : Nat)
  | promptOp (sid prompt : String) (now : Nat)
  | todosOp (sid todos : String) (now : Nat)
  | forceActiveOp (sid : String)
  | cleanupOp (now : Nat)
  | recordOp (r : Record) (path : String) (now : Nat)
  | chunkOp (c : Chunk) (now : Nat)
deriving Repr, DecidableEq

def step (cfg : Config) (st : Store) : Op → Store
  | .getOrCreate sid initTs now => getOrCreateSession st sid initTs now
  | .modelInfo sid model version now => updateModelInfo st sid model version now
  | .cwdOp sid cwd now => updateCwd st sid cwd now
  | .branchOp sid branch now => updateGitBranch st sid branch now
  | .tokensOp sid usage now => updateTokenUsage st sid usage now
  | .msgOp sid role content ts now => addMessage cfg st sid role content ts now
  | .subAgentOp agentId parent now => createSubAgent st agentId parent now
  | .linkOp parent agentId => linkSubAgent st parent agentId
  | .startToolOp sid name details now => startTool cfg st sid name details now
  | .completeToolOp sid name status details now => completeTool cfg st sid name status details now
  | .completeOp sid now => completeSession cfg st sid now
  | .statusOp sid status now => updateSessionStatus st sid status now
  | .promptOp sid prompt now => updateSessionPrompt st sid prompt now
  | .todosOp sid todos now => updateTodos st sid todos now
  | .forceActiveOp sid => forceActive st sid
  | .cleanupOp now => cleanupStaleSessions cfg st now
  | .recordOp r path now => processMessage cfg r path now st
  | .chunkOp c now => parseStreamChunk cfg c now st

/-- Run a sequence of operations from a state. -/
def run (cfg : Config) (st : Store) (ops : List Op) : Store :=
  ops.foldl (step cfg) st

/-- The states reachable from the empty store. -/
def reach (cfg : Config) (ops : List Op) : Store :=
  run cfg {} ops

/-! ## Replay-stable session fields (claim C2) -/

/-- The session fields whose values a full replay of the same record
    sequence cannot change: identity, creation time, the set-once attributes
    and the sub-agent linkage. -/
structure StableFields where
  id : String
  startTime : Nat
  model : Option String
  modelShort : Option String
  cwd : Option String
  version : Option String
  gitBranch : Option String
  parentSessionId : Option String
  agentId : Option String
  subAgents : List String
  isSubAgent : Bool
deriving Repr, DecidableEq

def Session.stable (s : Session) : StableFields :=
  { id := s.id, startTime := s.startTime, model := s.model, modelShort := s.modelShort,
    cwd := s.cwd, version := s.version, gitBranch := s.gitBranch,
    parentSessionId := s.parentSessionId, agentId := s.agentId,
    subAgents := s.subAgents, isSubAgent := s.isSubAgent }

/-- The store projected to the replay-stable fields (in map order). -/
def stableView (st : Store) : List (String × StableFields) :=
  st.sessions.map (fun p => (p.1, p.2.stable))

/-- A 1001-character content string (one character over the stored-content
    truncation limit of `addMessage`). -/
def longContent : String :=
  String.mk (List.replicate 1001 'a')

/-! ## Concrete example inputs used to instantiate the claims -/

def c1ops : List Op :=
  [Op.getOrCreate "s" none 0, Op.tokensOp "s" none 1, Op.msgOp "s" "user" "hi" none 2]

def c1sess : Session :=
  { id := "s", startTime := 0, lastActivity := 2, status := "active",
    messages := [{ role := "user", content := "hi", timestamp := "2", id := 2 }] }

def c5ops : List Op :=
  [Op.getOrCreate "s" none 0, Op.startToolOp "s" "Bash" [] 0,
   Op.chunkOp { ctype := some "error", session_id := some "s" } 1]

def c7store : Store := { sessions := [("s", newSession "s" 0)] }

def c5wops : List Op :=
  [Op.getOrCreate "s" none 0, Op.startToolOp "s" "Bash" [] 0, Op.completeOp "s" 1]

def c5wsess : Session :=
  { id := "s", startTime := 0, lastActivity := 1, status := "completed",
    toolHistory := [{ name := "Bash", duration := 1, status := "completed", completedAt := 1 }] }

def c10store : Store :=
  { sessions := [("s", { id := "s", startTime := 0, lastActivity := 1, status := "completed" })] }

def c6sess : Session :=
  { id := "s", startTime := 0, lastActivity := 0, status := "active",
    currentTool := some { name := "Bash", startTime := 0, status := "running" },
    toolHistory := [{ name := "Grep", duration := 1, status := "completed", completedAt := 2 },
                    { name := "Glob", duration := 1, status := "completed", completedAt := 1 }] }

def c6store : Store := { sessions := [("s", c6sess)] }

def c3store : Store := { sessions := [("P", newSession "P" 0)] }

def c2path : String := "/p/s.jsonl"

/-- A queue-dequeue record: creates the session on first processing. -/
def c2dq : Record :=
  { rtype := some "queue-operation", operation := some "dequeue", sessionId := some "s" }

/-- An assistant record carrying token usage (no model, no content). -/
def c2use : Record :=
  { rtype := some "assistant", sessionId := some "s",
    message := some { usage := some { input_tokens := some 1, output_tokens := some 2 } } }

def c2recs : List (Record × Nat) := [(c2dq, 0), (c2use, 1)]

/-! ## Monotone store evolution and record saturation (claim C2) -/

/-- The set-once fields only ever go from `none` to `some` and are never
    overwritten once set. -/
def sessionMono (s sNew : Session) : Prop :=
  (s.model.isSome = true → sNew.model = s.model) ∧
  (s.version.isSome = true → sNew.version = s.version) ∧
  (s.cwd.isSome = true → sNew.cwd = s.cwd) ∧
  (s.gitBranch.isSome = true → sNew.gitBranch = s.gitBranch)

/-- Record processing never deletes a session and never unsets a set-once
    field. -/
def MonoLe (st stNew : Store) : Prop :=
  ∀ k s, st.lookup k = some s →
    ∃ sNew, stNew.lookup k = some sNew ∧ sessionMono s sNew

/-- A record is saturated in a store when reprocessing it can no longer
    create a session or set a set-once field: every session the record would
    create already exists, and every set-once field it would write is already
    set.  Processing a record always leaves it saturated. -/
def Saturated (data : Record) (path : String) (st : Store) : Prop :=
  effId data path = "" ∨
  ((isSubRec data path = true ∧ truthyS data.sessionId = true ∧ truthyS data.agentId = true →
      (st.lookup (data.agentId.getD "")).isSome = true) ∧
   (truthyS data.cwd = true →
      ∃ s, st.lookup (effId data path) = some s ∧ s.cwd.isSome = true) ∧
   (truthyS data.gitBranch = true →
      ∃ s, st.lookup (effId data path) = some s ∧ s.gitBranch.isSome = true) ∧
   (data.rtype.getD "" = "assistant" →
      ∀ m, data.message = some m → truthyS m.model = true →
        ∃ s, st.lookup (effId data path) = some s ∧ s.model.isSome = true ∧
          (truthyS data.version = true → s.version.isSome = true)) ∧
   (data.rtype.getD "" = "user" →
      ∀ c, data.message.bind RecMessage.content = some (MsgContent.str c) →
        c.trim ≠ "" → c ≠ "Warmup" →
        (st.lookup (effId data path)).isSome = true) ∧
   (data.rtype.getD "" = "assistant" →
      ∀ bs, data.message.bind RecMessage.content = some (MsgContent.blocks bs) →
        (∃ b ∈ bs, b.btype = "tool_use") →
        (st.lookup (effId data path)).isSome = true) ∧
   (data.rtype.getD "" = "queue-operation" → data.operation.getD "" = "dequeue" →
      (st.lookup (effId data path)).isSome = true))

/-! ## Store invariants

`SInv` bundles the per-session invariants the claims are about: token-counter
coherence, the history/message caps, the open tool always being in status
"running", and a completed session having no open tool.  `Inv` adds key
uniqueness of the session map. -/

def SInv (cfg : Config) (strong : Bool) (s : Session) : Prop :=
  s.tokens.total = s.tokens.input + s.tokens.output ∧
  s.messages.length ≤ cfg.maxMessages ∧
  s.toolHistory.length ≤ cfg.maxToolHistory ∧
  (∀ ct, s.currentTool = some ct → ct.status = "running") ∧
  (strong = true → s.status = "completed" → s.currentTool = none)

def StoreInv (cfg : Config) (strong : Bool) (st : Store) : Prop :=
  (st.sessions.map Prod.fst).Nodup ∧ ∀ p ∈ st.sessions, SInv cfg strong p.2

variable {strong : Bool}

theorem find?_update (l : List (String × Session)) (sid : String) (f : Session → Session) :
    (l.map (fun p => if p.1 = sid then (sid, f p.2) else p)).find? (fun p => p.1 = sid)
      = (l.find? (fun p => p.1 = sid)).map (fun p => (sid, f p.2)) := by
  induction l with
  | nil => rfl
  | cons a l ih =>
    by_cases h : a.1 = sid <;> simp [List.find?_cons, h, ih]

theorem lookup_update_self (st : Store) (sid : String) (f : Session → Session) :
    (st.update sid f).lookup sid = (st.lookup sid).map f := by
  unfold Store.update Store.lookup
  simp only [find?_update]
  cases st.sessions.find? (fun p => p.1 = sid) <;> rfl

theorem find?_update_ne (l : List (String × Session)) (k sid : String) (hk : k ≠ sid)
    (f : Session → Session) :
    (l.map (fun p => if p.1 = sid then (sid, f p.2) else p)).find? (fun p => p.1 = k)
      = l.find? (fun p => p.1 = k) := by
  induction l with
  | nil => rfl
  | cons a l ih =>
    by_cases h2 : a.1 = k
    · have h : ¬ a.1 = sid := by rw [h2]; exact hk
      simp [List.find?_cons, h, h2, hk]
    · by_cases h : a.1 = sid
      · have hsk : ¬ (sid = k) := fun hc => hk hc.symm
        simp [List.find?_cons, h, h2, hsk, ih]
      · simp [List.find?_cons, h, h2, ih]

theorem lookup_update_ne (st : Store) (k sid : String) (hk : k ≠ sid) (f : Session → Session) :
    (st.update sid f).lookup k = st.lookup k := by
  unfold Store.update Store.lookup
  rw [find?_update_ne _ _ _ hk]

theorem keys_update (st : Store) (sid : String) (f : Session → Session) :
    (st.update sid f).sessions.map Prod.fst = st.sessions.map Prod.fst := by
  unfold Store.update
  simp only [List.map_map]
  apply List.map_congr_left
  intro p _
  by_cases h : p.1 = sid <;> simp [h, Function.comp]

theorem find?_of_mem_nodup {l : List (String × Session)} {q : String × Session}
    (hnd : (l.map Prod.fst).Nodup) (hq : q ∈ l) :
    l.find? (fun p => p.1 = q.1) = some q := by
  induction l with
  | nil => cases hq
  | cons a l ih =>
    simp only [List.map_cons, List.nodup_cons] at hnd
    rcases List.mem_cons.mp hq with h | h
    · subst h; simp [List.find?_cons]
    · have hne : a.1 ≠ q.1 := by
        intro hc
        exact hnd.1 (hc ▸ List.mem_map.mpr ⟨q, h, rfl⟩)
      simp [List.find?_cons, hne]
      exact ih hnd.2 h

/-- With unique keys, a member whose key is `sid` is the `lookup sid` result. -/
theorem lookup_of_mem_nodup {st : Store} {q : String × Session}
    (hnd : (st.sessions.map Prod.fst).Nodup) (hq : q ∈ st.sessions) :
    st.lookup q.1 = some q.2 := by
  unfold Store.lookup
  rw [find?_of_mem_nodup hnd hq]
  rfl

/-- Pointed preservation through `Store.update`: `f` needs to preserve the
    invariant only at the session actually looked up at `sid`. -/
theorem inv_update {cfg : Config} {st : Store} {sid : String} {f : Session → Session}
    (h : StoreInv cfg strong st)
    (hf : ∀ s, SInv cfg strong s → st.lookup sid = some s → SInv cfg strong (f s)) :
    StoreInv cfg strong (st.update sid f) := by
  obtain ⟨hnd, hall⟩ := h
  refine ⟨by rw [keys_update]; exact hnd, ?_⟩
  intro p hp
  unfold Store.update at hp
  simp only [List.mem_map] at hp
  obtain ⟨q, hq, hpq⟩ := hp
  by_cases hk : q.1 = sid
  · have hlq : st.lookup sid = some q.2 := hk ▸ lookup_of_mem_nodup hnd hq
    simp only [hk, if_true] at hpq
    subst hpq
    exact hf q.2 (hall q hq) hlq
  · simp only [hk, if_false] at hpq
    subst hpq
    exact hall q hq

/-- Unpointed preservation: `f` preserves the invariant on every session. -/
theorem inv_update_simple {cfg : Config} {st : Store} {sid : String} {f : Session → Session}
    (h : StoreInv cfg strong st) (hf : ∀ s, SInv cfg strong s → SInv cfg strong (f s)) :
    StoreInv cfg strong (st.update sid f) :=
  inv_update h (fun s hs _ => hf s hs)

theorem sinv_newSession (cfg : Config) (sid : String) (ts : Nat) :
    SInv cfg strong (newSession sid ts) := by
  refine ⟨rfl, ?_, ?_, ?_, ?_⟩ <;> simp [newSession, SInv]

theorem sinv_of_lookup {cfg : Config} {st : Store} {sid : String} {s : Session}
    (h : StoreInv cfg strong st) (hl : st.lookup sid = some s) : SInv cfg strong s := by
  unfold Store.lookup at hl
  obtain ⟨p, hp, hps⟩ := Option.map_eq_some'.mp hl
  exact hps ▸ h.2 p (List.mem_of_find?_eq_some hp)

theorem not_mem_keys_of_lookup_none {st : Store} {sid : String}
    (h : st.lookup sid = none) : sid ∉ st.sessions.map Prod.fst := by
  unfold Store.lookup at h
  rw [Option.map_eq_none'] at h
  rw [List.find?_eq_none] at h
  intro hmem
  obtain ⟨q, hq, hqe⟩ := List.mem_map.mp hmem
  exact absurd (by simp [hqe]) (h q hq)

theorem inv_getOrCreateSession {cfg : Config} {st : Store} (sid : String)
    (initTs : Option Nat) (now : Nat) (h : StoreInv cfg strong st) :
    StoreInv cfg strong (getOrCreateSession st sid initTs now) := by
  unfold getOrCreateSession
  cases hl : st.lookup sid with
  | some s =>
    simp only [hl, Option.isSome_some, if_true]
    split
    · exact inv_update_simple h (fun s hs => hs)
    · exact h
  | none =>
    simp only [hl, Option.isSome_none, Bool.false_eq_true, if_false]
    refine ⟨?_, ?_⟩
    · simp only [List.map_append, List.map_cons, List.map_nil]
      rw [List.nodup_append]
      refine ⟨h.1, List.nodup_singleton _, ?_⟩
      intro a ha hb
      simp only [List.mem_singleton] at hb
      subst hb
      exact not_mem_keys_of_lookup_none hl ha
    · intro p hp
      rcases List.mem_append.mp hp with hp | hp
      · exact h.2 p hp
      · simp only [List.mem_singleton] at hp
        subst hp
        exact sinv_newSession cfg sid _

theorem inv_updateModelInfo {cfg : Config} {st : Store} (sid model : String)
    (version : Option String) (now : Nat) (h : StoreInv cfg strong st) :
    StoreInv cfg strong (updateModelInfo st sid model version now) := by
  unfold updateModelInfo
  refine inv_update_simple (inv_getOrCreateSession sid none now h) ?_
  intro s hs
  dsimp only
  split <;> split <;> exact hs

theorem inv_updateCwd {cfg : Config} {st : Store} (sid cwd : String) (now : Nat)
    (h : StoreInv cfg strong st) : StoreInv cfg strong (updateCwd st sid cwd now) := by
  unfold updateCwd
  refine inv_update_simple (inv_getOrCreateSession sid none now h) ?_
  intro s hs
  dsimp only
  split <;> exact hs

theorem inv_updateGitBranch {cfg : Config} {st : Store} (sid branch : String) (now : Nat)
    (h : StoreInv cfg strong st) : StoreInv cfg strong (updateGitBranch st sid branch now) := by
  unfold updateGitBranch
  refine inv_update_simple (inv_getOrCreateSession sid none now h) ?_
  intro s hs
  dsimp only
  split <;> exact hs

theorem inv_updateTokenUsage {cfg : Config} {st : Store} (sid : String)
    (usage : Option Usage) (now : Nat) (h : StoreInv cfg strong st) :
    StoreInv cfg strong (updateTokenUsage st sid usage now) := by
  unfold updateTokenUsage
  cases hl : st.lookup sid with
  | none => exact h
  | some s =>
    cases usage with
    | none => exact h
    | some u =>
      refine inv_update_simple h ?_
      intro s hs
      obtain ⟨h1, h2, h3, h4, h5⟩ := hs
      exact ⟨rfl, h2, h3, h4, h5⟩

theorem msgs_trim_length {m : List Message} {x : Message} {cap : Nat}
    (hcap : 1 ≤ cap) (hm : m.length ≤ cap) :
    (if (m ++ [x]).length > cap then jsSliceNeg (m ++ [x]) cap else (m ++ [x])).length ≤ cap := by
  split
  · rename_i hlen
    have hcap0 : cap ≠ 0 := by omega
    simp only [jsSliceNeg, hcap0, if_false, List.length_drop]
    simp only [List.length_append, List.length_cons, List.length_nil] at hlen ⊢
    omega
  · rename_i hlen
    simp only [List.length_append, List.length_cons, List.length_nil] at hlen ⊢
    omega

theorem inv_addMessage {cfg : Config} {st : Store} (sid role content : String)
    (ts : Option String) (now : Nat) (hm : 1 ≤ cfg.maxMessages) (h : StoreInv cfg strong st) :
    StoreInv cfg strong (addMessage cfg st sid role content ts now) := by
  have hstore : ∀ st' : Store, StoreInv cfg strong st' →
      StoreInv cfg strong (addMessage.addMessageStore cfg st' sid role content ts now) := by
    intro st' h'
    unfold addMessage.addMessageStore
    refine inv_update_simple h' ?_
    intro s hs
    obtain ⟨h1, h2, h3, h4, h5⟩ := hs
    exact ⟨h1, msgs_trim_length hm h2, h3, h4, h5⟩
  unfold addMessage
  cases hl : st.lookup sid with
  | none => simp only [hl]; exact h
  | some s =>
    simp only [hl]
    split
    · exact h
    · split
      · split
        · exact h
        · exact hstore st h
      · exact hstore st h

theorem inv_linkSubAgent {cfg : Config} {st : Store} (parent agentId : String)
    (h : StoreInv cfg strong st) : StoreInv cfg strong (linkSubAgent st parent agentId) := by
  unfold linkSubAgent
  cases hl : st.lookup parent with
  | none => simp only [hl]; exact h
  | some p =>
    simp only [hl]
    split
    · exact h
    · exact inv_update_simple h (fun s hs => hs)

theorem inv_createSubAgent {cfg : Config} {st : Store} (agentId parent : String)
    (now : Nat) (h : StoreInv cfg strong st) : StoreInv cfg strong (createSubAgent st agentId parent now) := by
  unfold createSubAgent
  cases hl : st.lookup agentId with
  | some s => simp only [hl]; exact h
  | none =>
    simp only [hl]
    apply inv_linkSubAgent
    unfold createSubAgentCore
    have h1 := inv_getOrCreateSession agentId none now h
    have h2 : StoreInv cfg strong ((getOrCreateSession st agentId none now).update agentId
        (fun s => { s with agentId := some agentId, parentSessionId := some parent,
                           isSubAgent := true })) :=
      inv_update_simple h1 (fun s hs => hs)
    exact ⟨h2.1, h2.2⟩

theorem hist_trim_length {th : List HistoryEntry} {e : HistoryEntry} {cap : Nat}
    (hth : th.length ≤ cap) :
    (if (e :: th).length > cap then (e :: th).take cap else (e :: th)).length ≤ cap := by
  split
  · simp only [List.length_take]
    exact Nat.min_le_left _ _
  · rename_i hlen
    simp only [List.length_cons] at hlen ⊢
    omega

theorem inv_completeTool {cfg : Config} {st : Store} (sid name status : String)
    (details : Details) (now : Nat) (h : StoreInv cfg strong st) :
    StoreInv cfg strong (completeTool cfg st sid name status details now) := by
  unfold completeTool
  cases hl : st.lookup sid with
  | none => simp only [hl]; exact h
  | some s =>
    simp only [hl]
    cases hct : s.currentTool with
    | none => exact h
    | some ct =>
      refine inv_update_simple h ?_
      intro s hs
      obtain ⟨h1, h2, h3, h4, h5⟩ := hs
      refine ⟨h1, h2, hist_trim_length h3, ?_, fun _ _ => rfl⟩
      intro ct' hct'
      exact Option.noConfusion (show (none : Option ToolExec) = some ct' from hct')

theorem inv_startTool {cfg : Config} {st : Store} (sid name : String)
    (details : Details) (now : Nat) (h : StoreInv cfg strong st) :
    StoreInv cfg strong (startTool cfg st sid name details now) := by
  unfold startTool
  have h1 := inv_getOrCreateSession sid none now h
  set st1 := getOrCreateSession st sid none now with hst1
  have h2 : StoreInv cfg strong (match st1.lookup sid with
      | some s =>
          match s.currentTool with
          | some ct =>
            if ct.status = "running" then completeTool cfg st1 sid ct.name "completed" [] now
            else st1
          | none => st1
      | none => st1) := by
    cases hls : st1.lookup sid with
    | none => simp only [hls]; exact h1
    | some s =>
      simp only [hls]
      cases hct : s.currentTool with
      | none => exact h1
      | some ct =>
        simp only [hct]
        split
        · exact inv_completeTool sid ct.name "completed" [] now h1
        · exact h1
  refine inv_update_simple h2 ?_
  intro s hs
  obtain ⟨hh1, hh2, hh3, hh4, hh5⟩ := hs
  refine ⟨hh1, hh2, hh3, ?_, ?_⟩
  · intro ct' hct'
    injection hct' with he
    rw [← he]
  · intro _ hc
    have hc2 : ("active" : String) = "completed" := hc
    exact absurd hc2 (by decide)

theorem inv_completeSession {cfg : Config} {st : Store} (sid : String) (now : Nat)
    (h : StoreInv cfg strong st) : StoreInv cfg strong (completeSession cfg st sid now) := by
  unfold completeSession
  cases hl : st.lookup sid with
  | none => simp only [hl]; exact h
  | some s =>
    simp only [hl]
    have hs := sinv_of_lookup h hl
    cases hct : s.currentTool with
    | none =>
      refine inv_update h ?_
      intro s' hs' hl'
      rw [hl] at hl'
      obtain rfl : s = s' := by injection hl'
      obtain ⟨h1, h2, h3, h4, h5⟩ := hs'
      refine ⟨h1, h2, h3, ?_, fun _ _ => hct⟩
      intro ct' hct'
      have hne : s.currentTool = some ct' := hct'
      rw [hct] at hne
      cases hne
    | some ct =>
      have hrun : ct.status = "running" := hs.2.2.2.1 ct hct
      dsimp only
      rw [if_pos hrun]
      refine inv_update (inv_completeTool sid ct.name "completed" [] now h) ?_
      intro s' hs' hl'
      have hl2 : (completeTool cfg st sid ct.name "completed" [] now).lookup sid = some s' := hl'
      unfold completeTool at hl2
      rw [hl] at hl2
      simp only [hct] at hl2
      rw [lookup_update_self, hl] at hl2
      simp only [Option.map_some', Option.some_inj] at hl2
      obtain ⟨h1, h2, h3, h4, h5⟩ := hs'
      have hnone : s'.currentTool = none := by rw [← hl2]
      refine ⟨h1, h2, h3, ?_, fun _ _ => hnone⟩
      intro ct' hct'
      have hne : s'.currentTool = some ct' := hct'
      rw [hnone] at hne
      cases hne

theorem inv_updateSessionStatus {cfg : Config} {st : Store} (sid status : String)
    (now : Nat) (hst : strong = true → status ≠ "completed") (h : StoreInv cfg strong st) :
    StoreInv cfg strong (updateSessionStatus st sid status now) := by
  unfold updateSessionStatus
  cases hl : st.lookup sid with
  | none => simp only [hl]; exact h
  | some s =>
    simp only [hl]
    refine inv_update_simple h ?_
    intro s hs
    obtain ⟨h1, h2, h3, h4, h5⟩ := hs
    refine ⟨h1, h2, h3, h4, ?_⟩
    intro hstr hc
    exact absurd hc (hst hstr)

theorem inv_updateSessionPrompt {cfg : Config} {st : Store} (sid prompt : String)
    (now : Nat) (h : StoreInv cfg strong st) : StoreInv cfg strong (updateSessionPrompt st sid prompt now) := by
  unfold updateSessionPrompt
  exact inv_update_simple (inv_getOrCreateSession sid none now h) (fun s hs => hs)

theorem inv_updateTodos {cfg : Config} {st : Store} (sid todos : String)
    (now : Nat) (h : StoreInv cfg strong st) : StoreInv cfg strong (updateTodos st sid todos now) := by
  unfold updateTodos
  cases hl : st.lookup sid with
  | none => simp only [hl]; exact h
  | some s =>
    simp only [hl]
    exact inv_update_simple h (fun s hs => hs)

theorem inv_forceActive {cfg : Config} {st : Store} (sid : String)
    (h : StoreInv cfg strong st) : StoreInv cfg strong (forceActive st sid) := by
  unfold forceActive
  refine inv_update_simple h ?_
  intro s hs
  obtain ⟨h1, h2, h3, h4, h5⟩ := hs
  refine ⟨h1, h2, h3, h4, ?_⟩
  intro _ hc
  have hc2 : ("active" : String) = "completed" := hc
  exact absurd hc2 (by decide)

theorem cleanup_keys_sublist (g : String × Session → Option (String × Session))
    (hg : ∀ p q, g p = some q → q.1 = p.1) (l : List (String × Session)) :
    ((l.filterMap g).map Prod.fst).Sublist (l.map Prod.fst) := by
  induction l with
  | nil => simp
  | cons a l ih =>
    rw [List.filterMap_cons]
    cases hga : g a with
    | none =>
      simp only [List.map_cons]
      exact ih.cons _
    | some q =>
      simp only [List.map_cons]
      rw [hg a q hga]
      exact ih.cons₂ _

theorem inv_cleanupStaleSessions {cfg : Config} {st : Store} (now : Nat)
    (h : StoreInv cfg strong st) : StoreInv cfg strong (cleanupStaleSessions cfg st now) := by
  unfold cleanupStaleSessions
  obtain ⟨hnd, hall⟩ := h
  constructor
  · refine List.Nodup.sublist (cleanup_keys_sublist _ ?_ _) hnd
    intro p q hpq
    dsimp only at hpq
    split at hpq
    · cases hpq
    · split at hpq <;> (injection hpq with he; rw [← he])
  · intro p hp
    obtain ⟨q, hq, hgq⟩ := List.mem_filterMap.mp hp
    have hsq := hall q hq
    dsimp only at hgq
    split at hgq
    · cases hgq
    · split at hgq
      · rename_i hcond
        injection hgq with he
        rw [← he]
        obtain ⟨h1, h2, h3, h4, h5⟩ := hsq
        refine ⟨h1, h2, h3, ?_, ?_⟩
        · intro ct' hct'
          have : q.2.currentTool = some ct' := hct'
          rw [hcond.2.1] at this
          cases this
        · intro _ hc
          have hc2 : ("idle" : String) = "completed" := hc
          exact absurd hc2 (by decide)
      · injection hgq with he
        rw [← he]
        exact hsq

theorem foldl_pres {β : Type} {P : Store → Prop} (f : Store → β → Store)
    (hf : ∀ st b, P st → P (f st b)) :
    ∀ (l : List β) (st : Store), P st → P (l.foldl f st) := by
  intro l
  induction l with
  | nil => intro st h; exact h
  | cons b l ih =>
    intro st h
    exact ih _ (hf st b h)

theorem inv_handleToolUse {cfg : Config} {st : Store} (sid : String)
    (toolUse : ContentBlock) (ts : Option String) (now : Nat)
    (h : StoreInv cfg strong st) : StoreInv cfg strong (handleToolUse cfg sid toolUse ts now st) := by
  unfold handleToolUse
  exact inv_startTool _ _ _ _ h

theorem inv_handleUserMessage {cfg : Config} {st : Store} (sid : String) (data : Record)
    (now : Nat) (hm : 1 ≤ cfg.maxMessages) (h : StoreInv cfg strong st) :
    StoreInv cfg strong (handleUserMessage cfg sid data now st) := by
  unfold handleUserMessage
  split
  · split
    · exact inv_addMessage _ _ _ _ _ hm (inv_updateSessionPrompt _ _ _ h)
    · exact h
  · exact h

theorem inv_assistantModelStep {cfg : Config} {st : Store} (sid : String)
    (data : Record) (now : Nat) (h : StoreInv cfg strong st) :
    StoreInv cfg strong (assistantModelStep sid data now st) := by
  unfold assistantModelStep
  cases data.message with
  | none => exact h
  | some m =>
    dsimp only
    split
    · exact inv_updateModelInfo _ _ _ _ h
    · exact h

theorem inv_assistantUsageStep {cfg : Config} {st : Store} (sid : String)
    (data : Record) (now : Nat) (h : StoreInv cfg strong st) :
    StoreInv cfg strong (assistantUsageStep sid data now st) := by
  unfold assistantUsageStep
  cases data.message with
  | none => exact h
  | some m =>
    dsimp only
    cases m.usage with
    | none => exact h
    | some u => exact inv_updateTokenUsage _ _ _ h

theorem inv_assistantBlocksStep {cfg : Config} {st : Store} (sid : String)
    (data : Record) (ts : Option String) (now : Nat) (hm : 1 ≤ cfg.maxMessages)
    (h : StoreInv cfg strong st) :
    StoreInv cfg strong (assistantBlocksStep cfg sid data ts now st) := by
  unfold assistantBlocksStep
  split
  · refine foldl_pres _ ?_ _ _ h
    intro st b hst
    split
    · exact inv_addMessage _ _ _ _ _ hm hst
    · split
      · exact inv_handleToolUse _ _ _ _ hst
      · exact hst
  · exact h

theorem inv_handleAssistantMessage {cfg : Config} {st : Store} (sid : String)
    (data : Record) (ts : Option String) (now : Nat) (hm : 1 ≤ cfg.maxMessages)
    (h : StoreInv cfg strong st) :
    StoreInv cfg strong (handleAssistantMessage cfg sid data ts now st) :=
  inv_assistantBlocksStep _ _ _ _ hm
    (inv_assistantUsageStep _ _ _ (inv_assistantModelStep _ _ _ h))

theorem inv_handleToolResult {cfg : Config} {st : Store} (sid : String) (data : Record)
    (now : Nat) (h : StoreInv cfg strong st) :
    StoreInv cfg strong (handleToolResult cfg sid data now st) := by
  unfold handleToolResult
  split
  · split
    · exact inv_completeTool _ _ _ _ _ h
    · exact h
  · exact h

theorem inv_pmSubAgent {cfg : Config} {st : Store} (data : Record) (isSub : Bool)
    (now : Nat) (h : StoreInv cfg strong st) : StoreInv cfg strong (pmSubAgent data isSub now st) := by
  unfold pmSubAgent
  split
  · exact inv_createSubAgent _ _ _ h
  · exact h

theorem inv_pmMeta {cfg : Config} {st : Store} (eff : String) (data : Record)
    (now : Nat) (h : StoreInv cfg strong st) : StoreInv cfg strong (pmMeta eff data now st) := by
  unfold pmMeta
  dsimp only
  have h1 : StoreInv cfg strong (if truthyS data.cwd = true then
      updateCwd st eff (data.cwd.getD "") now else st) := by
    split
    · exact inv_updateCwd _ _ _ h
    · exact h
  split
  · exact inv_updateGitBranch _ _ _ h1
  · exact h1

theorem inv_pmDispatch {cfg : Config} {st : Store} (eff : String) (data : Record)
    (now : Nat) (hm : 1 ≤ cfg.maxMessages) (h : StoreInv cfg strong st) :
    StoreInv cfg strong (pmDispatch cfg eff data now st) := by
  unfold pmDispatch
  split
  · exact inv_handleUserMessage _ _ _ hm h
  · exact inv_handleAssistantMessage _ _ _ _ hm h
  · exact inv_handleToolResult _ _ _ h
  · exact inv_completeSession _ _ h
  · split
    · exact inv_getOrCreateSession _ _ _ h
    · exact h
  · exact h

theorem inv_processMessage {cfg : Config} {st : Store} (data : Record) (path : String)
    (now : Nat) (hm : 1 ≤ cfg.maxMessages) (h : StoreInv cfg strong st) :
    StoreInv cfg strong (processMessage cfg data path now st) := by
  unfold processMessage
  split
  · exact h
  · exact inv_pmDispatch _ _ _ hm (inv_pmMeta _ _ _ (inv_pmSubAgent _ _ _ h))

theorem inv_spHandleToolUse {cfg : Config} {st : Store} (sid : String)
    (toolUse : ContentBlock) (now : Nat) (h : StoreInv cfg strong st) :
    StoreInv cfg strong (spHandleToolUse cfg sid toolUse now st) := by
  unfold spHandleToolUse
  exact inv_startTool _ _ _ _ h

theorem inv_spHandleToolResult {cfg : Config} {st : Store} (sid : String)
    (result : Chunk) (now : Nat) (h : StoreInv cfg strong st) :
    StoreInv cfg strong (spHandleToolResult cfg sid result now st) := by
  unfold spHandleToolResult
  exact inv_completeTool _ _ _ _ _ h

theorem inv_parseStreamChunk {cfg : Config} {st : Store} (c : Chunk) (now : Nat)
    (h : StoreInv cfg strong st) : StoreInv cfg strong (parseStreamChunk cfg c now st) := by
  unfold parseStreamChunk
  dsimp only
  split
  · exact inv_getOrCreateSession _ _ _ h
  · exact inv_updateSessionStatus _ _ _ (fun _ => by decide) h
  · split
    · refine foldl_pres _ ?_ _ _ h
      intro st b hst
      split
      · exact inv_spHandleToolUse _ _ _ hst
      · exact hst
    · exact h
  · exact inv_spHandleToolResult _ _ _ h
  · exact inv_completeSession _ _ h
  · exact inv_updateSessionStatus _ _ _ (fun _ => by decide) h
  · exact inv_getOrCreateSession _ _ _ h

/-- Preservation of the store invariant by every operation; the only
    operation that can break the completed-session/no-open-tool component is
    a raw `updateSessionStatus` with literal status "completed", which no
    caller in the program issues (the stream parser passes only "active" and
    "error"). -/
theorem step_inv {cfg : Config} {st : Store} (op : Op) (hm : 1 ≤ cfg.maxMessages)
    (hop : strong = true → ∀ sid now, op ≠ Op.statusOp sid "completed" now)
    (h : StoreInv cfg strong st) : StoreInv cfg strong (step cfg st op) := by
  cases op with
  | getOrCreate sid initTs now => exact inv_getOrCreateSession _ _ _ h
  | modelInfo sid model version now => exact inv_updateModelInfo _ _ _ _ h
  | cwdOp sid cwd now => exact inv_updateCwd _ _ _ h
  | branchOp sid branch now => exact inv_updateGitBranch _ _ _ h
  | tokensOp sid usage now => exact inv_updateTokenUsage _ _ _ h
  | msgOp sid role content ts now => exact inv_addMessage _ _ _ _ _ hm h
  | subAgentOp agentId parent now => exact inv_createSubAgent _ _ _ h
  | linkOp parent agentId => exact inv_linkSubAgent _ _ h
  | startToolOp sid name details now => exact inv_startTool _ _ _ _ h
  | completeToolOp sid name status details now => exact inv_completeTool _ _ _ _ _ h
  | completeOp sid now => exact inv_completeSession _ _ h
  | statusOp sid status now =>
    refine inv_updateSessionStatus _ _ _ ?_ h
    intro hstr hc
    exact absurd (hc ▸ rfl) (hop hstr sid now)
  | promptOp sid prompt now => exact inv_updateSessionPrompt _ _ _ h
  | todosOp sid todos now => exact inv_updateTodos _ _ _ h
  | forceActiveOp sid => exact inv_forceActive _ h
  | cleanupOp now => exact inv_cleanupStaleSessions _ h
  | recordOp r path now => exact inv_processMessage _ _ _ hm h
  | chunkOp c now => exact inv_parseStreamChunk _ _ h

theorem run_inv {cfg : Config} (ops : List Op) (hm : 1 ≤ cfg.maxMessages)
    (hops : strong = true → ∀ op ∈ ops, ∀ sid now, op ≠ Op.statusOp sid "completed" now)
    {st : Store} (h : StoreInv cfg strong st) : StoreInv cfg strong (run cfg st ops) := by
  induction ops generalizing st with
  | nil => exact h
  | cons op ops ih =>
    refine ih (fun hstr o ho => hops hstr o (List.mem_cons_of_mem _ ho))
      (step_inv op hm (fun hstr => hops hstr op (List.mem_cons_self _ _)) h)

theorem inv_empty (cfg : Config) : StoreInv cfg strong {} :=
  ⟨List.nodup_nil, by intro p hp; cases hp⟩

theorem reach_inv {cfg : Config} (ops : List Op) (hm : 1 ≤ cfg.maxMessages)
    (hops : strong = true → ∀ op ∈ ops, ∀ sid now, op ≠ Op.statusOp sid "completed" now) :
    StoreInv cfg strong (reach cfg ops) :=
  run_inv ops hm hops (inv_empty cfg)

/-! ## Lookup behaviour of the staleness sweep -/

theorem mem_keys_of_mem {l : List (String × Session)} {p : String × Session}
    (hp : p ∈ l) : p.1 ∈ l.map Prod.fst :=
  List.mem_map.mpr ⟨p, hp, rfl⟩

theorem find?_none_of_not_mem_keys {l : List (String × Session)} {sid : String}
    (h : sid ∉ l.map Prod.fst) : l.find? (fun p => p.1 = sid) = none := by
  apply List.find?_eq_none.mpr
  intro p hp
  simp only [decide_eq_true_eq]
  intro hc
  exact h (hc ▸ mem_keys_of_mem hp)

theorem find?_filterMap_keyed {g : String × Session → Option (String × Session)}
    (hg : ∀ p q, g p = some q → q.1 = p.1) (l : List (String × Session)) (sid : String)
    (hnd : (l.map Prod.fst).Nodup) :
    (l.filterMap g).find? (fun p => p.1 = sid) = (l.find? (fun p => p.1 = sid)).bind g := by
  induction l with
  | nil => rfl
  | cons a l ih =>
    simp only [List.map_cons, List.nodup_cons] at hnd
    rw [List.filterMap_cons]
    by_cases ha : a.1 = sid
    · cases hga : g a with
      | none =>
        simp only [List.find?_cons, ha, decide_true_eq_true]
        have hnot : sid ∉ (l.filterMap g).map Prod.fst := by
          intro hmem
          have hsub := cleanup_keys_sublist g hg l
          exact hnd.1 (ha ▸ hsub.mem hmem)
        rw [find?_none_of_not_mem_keys hnot]
        simp [List.find?_cons, ha, hga]
      | some q =>
        have hq : q.1 = sid := (hg a q hga).trans ha
        simp [List.find?_cons, ha, hga, hq]
    · cases hga : g a with
      | none =>
        simp only [List.find?_cons, ha]
        rw [ih hnd.2]
        simp [List.find?_cons, ha]
      | some q =>
        have hq : q.1 ≠ sid := by rw [hg a q hga]; exact ha
        simp only [List.find?_cons, hq, ha]
        rw [ih hnd.2]
        simp [List.find?_cons, ha, hq]

theorem cleanup_lookup {cfg : Config} {st : Store} {sid : String} {s : Session} (now : Nat)
    (hnd : (st.sessions.map Prod.fst).Nodup) (hl : st.lookup sid = some s) :
    (cleanupStaleSessions cfg st now).lookup sid =
      if now - s.lastActivity > cfg.sessionTimeoutMs then none
      else if s.status = "active" ∧ s.currentTool = none ∧
          now - s.lastActivity > cfg.idleThresholdMs then
        some { s with status := "idle" }
      else some s := by
  unfold cleanupStaleSessions Store.lookup
  dsimp only
  rw [find?_filterMap_keyed (fun p q hpq => by
      split at hpq
      · cases hpq
      · split at hpq <;> (injection hpq with he; rw [← he])) _ _ hnd]
  unfold Store.lookup at hl
  obtain ⟨p, hp, hps⟩ := Option.map_eq_some'.mp hl
  rw [hp]
  subst hps
  rw [Option.some_bind']
  split
  · rename_i hto
    simp [hto]
  · rename_i hto
    split
    · rename_i hidle
      simp [hto, hidle]
    · rfl

theorem getOrCreate_existing {st : Store} {sid : String} {s : Session} (now : Nat)
    (hl : st.lookup sid = some s) :
    getOrCreateSession st sid none now
      = st.update sid (fun s => { s with lastActivity := now }) := by
  unfold getOrCreateSession
  rw [hl]
  rfl

/-- C1: for every store state reachable by any sequence of engine operations,
    every session's `tokens.total` equals `tokens.input + tokens.output` —
    `updateTokenUsage` recomputes `total` after each cumulative increment and
    `getOrCreateSession` initialises all counters to zero.  (The message cap
    is at least 1 because `parseInt(env) || 20` never yields 0.) -/
theorem C1_tokens_total (cfg : Config) (ops : List Op) (sid : String) (s : Session)
    (hm : 1 ≤ cfg.maxMessages)
    (hl : (reach cfg ops).lookup sid = some s) :
    s.tokens.total = s.tokens.input + s.tokens.output := by
  have hinv : StoreInv cfg false (reach cfg ops) :=
    reach_inv ops hm (fun h => Bool.noConfusion h)
  exact (sinv_of_lookup hinv hl).1

/-- Witness for C1 at a concrete run: create a session, add usage 3/4. -/
theorem C1_tokens_total_witness :
    1 ≤ ({} : Config).maxMessages ∧
      c1sess.tokens.total = c1sess.tokens.input + c1sess.tokens.output :=
  ⟨by decide, C1_tokens_total {} c1ops "s" c1sess (by decide) (by decide)⟩

/-- C4 counterexample: a session created at time 0, swept at exactly the idle
    threshold (30000 ms of inactivity, `IDLE_THRESHOLD_MS = 30000`): the code
    requires `inactiveTime > IDLE_THRESHOLD_MS` (strict), so the session stays
    "active", while the claim says it transitions to idle. -/
theorem C4_counterexample :
    ((reach {} [Op.getOrCreate "s" none 0, Op.cleanupOp 30000]).lookup "s").map
        Session.status = some "active" ∧
    ((reach {} [Op.getOrCreate "s" none 0, Op.cleanupOp 30000]).lookup "s").map
        Session.status ≠ some "idle" := by
  refine ⟨by decide, by decide⟩

/-- C4 (amended): in the staleness sweep, an active session with no open tool
    and inactivity within the removal timeout transitions to idle exactly when
    its inactivity is strictly greater than the idle threshold; at the
    threshold or below it stays active. -/
theorem C4_idle_strict (cfg : Config) (st : Store) (sid : String) (s : Session) (now : Nat)
    (hnd : (st.sessions.map Prod.fst).Nodup)
    (hl : st.lookup sid = some s)
    (hact : s.status = "active") (hct : s.currentTool = none)
    (hto : ¬ now - s.lastActivity > cfg.sessionTimeoutMs) :
    ((cleanupStaleSessions cfg st now).lookup sid).map Session.status =
      some (if now - s.lastActivity > cfg.idleThresholdMs then "idle" else "active") := by
  rw [cleanup_lookup now hnd hl, if_neg hto]
  by_cases hidle : now - s.lastActivity > cfg.idleThresholdMs
  · rw [if_pos ⟨hact, hct, hidle⟩, if_pos hidle]
    rfl
  · rw [if_neg (fun hc => hidle hc.2.2), if_neg hidle]
    rw [Option.map_some']
    rw [hact]

/-- Witness for the amended C4: one microsecond over the threshold idles. -/
theorem C4_idle_strict_witness :
    ((cleanupStaleSessions {} c7store 30001).lookup "s").map Session.status =
      some (if 30001 - (newSession "s" 0).lastActivity > ({} : Config).idleThresholdMs
        then "idle" else "active") :=
  C4_idle_strict {} c7store "s" (newSession "s" 0) 30001 (by decide) (by decide) rfl rfl
    (by decide)

/-- C5 counterexample: start a tool, then feed the stream parser an `error`
    chunk: `updateSessionStatus(sid, "error")` changes the status without
    closing the running tool, so the state has status "error" and a non-null
    `currentTool` — the claim's invariant fails for "error". -/
theorem C5_counterexample :
    ((reach {} c5ops).lookup "s").map (fun s => (s.status, s.currentTool.isSome)) =
      some ("error", true) := by
  decide

/-- C5 (amended): in every reachable state, a session with status "completed"
    has no open tool — `completeSession` closes a running tool before setting
    the status.  The "error" half of the claim is false (see the
    counterexample): transitions to "error" go through `updateSessionStatus`,
    which does not close the tool.  (The hypothesis excludes raw
    `updateSessionStatus(_, "completed")` operations, which no caller in the
    program issues.) -/
theorem C5_completed_closed (cfg : Config) (ops : List Op) (sid : String) (s : Session)
    (hm : 1 ≤ cfg.maxMessages)
    (hops : ∀ op ∈ ops, ∀ k now, op ≠ Op.statusOp k "completed" now)
    (hl : (reach cfg ops).lookup sid = some s) (hc : s.status = "completed") :
    s.currentTool = none := by
  have hinv : StoreInv cfg true (reach cfg ops) := reach_inv ops hm (fun _ => hops)
  exact (sinv_of_lookup hinv hl).2.2.2.2 rfl hc

/-- Witness for the amended C5: a completed run has no open tool. -/
theorem C5_completed_closed_witness : c5wsess.currentTool = none :=
  C5_completed_closed {} c5wops "s" c5wsess (by decide)
    (by intro op hop k now h; rw [h] at hop; simp [c5wops] at hop)
    (by decide) rfl

/-- C10: `startTool` on an existing session unconditionally sets the status
    to "active" and `lastActivity` to the current time, for every prior
    status — a completed, errored or idle session returns to "active" when a
    later record starts a tool. -/
theorem C10_startTool_reactivates (cfg : Config) (st : Store) (sid toolName : String)
    (details : Details) (now : Nat) (s : Session)
    (hl : st.lookup sid = some s) :
    ((startTool cfg st sid toolName details now).lookup sid).map
        (fun s => (s.status, s.lastActivity)) = some ("active", now) := by
  unfold startTool
  dsimp only
  rw [getOrCreate_existing now hl]
  have hl1 : (st.update sid (fun s => { s with lastActivity := now })).lookup sid
      = some { s with lastActivity := now } := by
    rw [lookup_update_self, hl]
    rfl
  rw [hl1]
  dsimp only
  cases hct : s.currentTool with
  | none =>
    rw [lookup_update_self, hl1]
    rfl
  | some ct =>
    dsimp only
    by_cases hrun : ct.status = "running"
    · rw [if_pos hrun]
      unfold completeTool
      rw [hl1]
      dsimp only
      rw [hct]
      rw [lookup_update_self, lookup_update_self, hl1]
      rfl
    · rw [if_neg hrun]
      rw [lookup_update_self, hl1]
      rfl

/-- Witness for C10: a "completed" session becomes "active" again. -/
theorem C10_startTool_reactivates_witness :
    ((startTool {} c10store "s" "Bash" [] 7).lookup "s").map
        (fun s => (s.status, s.lastActivity)) = some ("active", 7) :=
  C10_startTool_reactivates {} c10store "s" "Bash" [] 7
    { id := "s", startTime := 0, lastActivity := 1, status := "completed" } (by decide)

theorem jsSlice_full {α : Type} {m : List α} {x : α} {cap : Nat}
    (hm : 1 ≤ cap) (hfull : m.length = cap) :
    (if (m ++ [x]).length > cap then jsSliceNeg (m ++ [x]) cap else m ++ [x])
      = m.tail ++ [x] := by
  have hlen : (m ++ [x]).length > cap := by simp [hfull]
  rw [if_pos hlen]
  have hcap0 : cap ≠ 0 := by omega
  simp only [jsSliceNeg, hcap0, if_false]
  rw [List.length_append, hfull]
  have h1 : cap + [x].length - cap = 1 := by simp
  rw [h1, List.drop_append_of_le_length (by omega), List.drop_one]

/-- C6: (1) in every reachable state, `messages` and `toolHistory` never
    exceed their configured caps; (2) `completeTool` at a full history keeps
    the new entry at the front and drops the last (oldest) entry of the
    newest-first list; (3) `addMessage` at full capacity drops the first
    (oldest) entry of the oldest-first list and appends the new entry. -/
theorem C6_caps_and_eviction (cfg : Config) :
    (∀ ops sid s, 1 ≤ cfg.maxMessages → (reach cfg ops).lookup sid = some s →
        s.messages.length ≤ cfg.maxMessages ∧ s.toolHistory.length ≤ cfg.maxToolHistory) ∧
    (∀ st : Store, ∀ sid : String, ∀ s ct name status details now,
        st.lookup sid = some s →
        s.currentTool = some ct → s.toolHistory.length = cfg.maxToolHistory →
        1 ≤ cfg.maxToolHistory →
        ((completeTool cfg st sid name status details now).lookup sid).map Session.toolHistory
          = some ({ name := name, duration := now - ct.startTime, status := status,
                    completedAt := now, details := details } :: s.toolHistory.dropLast)) ∧
    (∀ st : Store, ∀ sid : String, ∀ s role content ts now,
        st.lookup sid = some s → content ≠ "" →
        (∀ lastMsg, s.messages.getLast? = some lastMsg →
          ¬(lastMsg.content = content ∧ lastMsg.role = role)) →
        s.messages.length = cfg.maxMessages → 1 ≤ cfg.maxMessages →
        ((addMessage cfg st sid role content ts now).lookup sid).map Session.messages
          = some (s.messages.tail ++
              [{ role := role, content := truncate content 1000,
                 timestamp := if (ts.getD "") = "" then toString now else ts.getD "",
                 id := now }])) := by
  refine ⟨?_, ?_, ?_⟩
  · intro ops sid s hm hl
    have hinv0 : StoreInv cfg false (reach cfg ops) :=
      reach_inv ops hm (fun h => Bool.noConfusion h)
    have h := sinv_of_lookup hinv0 hl
    exact ⟨h.2.1, h.2.2.1⟩
  · intro st sid s ct name status details now hl hct hfull hcap
    unfold completeTool
    rw [hl]
    simp only [hct]
    rw [lookup_update_self, hl, Option.map_some', Option.map_some']
    have hlen : (({ name := name, duration := now - ct.startTime, status := status,
                    completedAt := now, details := details } : HistoryEntry) ::
          s.toolHistory).length > cfg.maxToolHistory := by
      simp only [List.length_cons, hfull]
      omega
    rw [if_pos hlen]
    obtain ⟨k, hk⟩ : ∃ k, cfg.maxToolHistory = k + 1 := ⟨cfg.maxToolHistory - 1, by omega⟩
    rw [hk, List.take_succ_cons, List.dropLast_eq_take, hfull, hk, Nat.add_sub_cancel]
  · intro st sid s role content ts now hl hc hnodup hfull hm
    unfold addMessage
    rw [hl]
    dsimp only
    rw [if_neg hc]
    cases hg : s.messages.getLast? with
    | none =>
      unfold addMessage.addMessageStore
      rw [lookup_update_self, hl, Option.map_some', Option.map_some']
      dsimp only
      rw [jsSlice_full hm hfull]
    | some lastMsg =>
      dsimp only
      rw [if_neg (hnodup lastMsg hg)]
      unfold addMessage.addMessageStore
      rw [lookup_update_self, hl, Option.map_some', Option.map_some']
      dsimp only
      rw [jsSlice_full hm hfull]

/-- Witness for C6 (the full-history eviction clause, cap 2). -/
theorem C6_caps_and_eviction_witness :
    ((completeTool { maxToolHistory := 2 } c6store "s" "Read" "completed" [] 5).lookup "s").map
        Session.toolHistory
      = some ({ name := "Read", duration := 5 - 0, status := "completed", completedAt := 5,
                details := [] } :: c6sess.toolHistory.dropLast) :=
  (C6_caps_and_eviction { maxToolHistory := 2 }).2.1 c6store "s" c6sess
    { name := "Bash", startTime := 0, status := "running" } "Read" "completed" [] 5
    (by decide) rfl (by decide) (by decide)

theorem longContent_length : longContent.length = 1001 := by
  show (List.replicate 1001 'a').length = 1001
  rw [List.length_replicate]

theorem longContent_ne_empty : longContent ≠ "" := by
  intro h
  have h2 := congrArg String.length h
  rw [longContent_length] at h2
  exact absurd h2 (by decide)

theorem str_length_data (s : String) : s.length = s.data.length := rfl

theorem longContent_data : longContent.data = List.replicate 1001 'a' := rfl

theorem truncate_length_long : (truncate longContent 1000).length = 1003 := by
  unfold truncate
  rw [if_neg longContent_ne_empty, if_neg (by rw [longContent_length]; decide)]
  rw [str_length_data, String.data_append, List.length_append, String.data_take]
  rw [longContent_data, List.length_take, List.length_replicate]
  decide

theorem truncate_longContent_ne : truncate longContent 1000 ≠ longContent := by
  intro h
  have h2 := congrArg String.length h
  rw [truncate_length_long, longContent_length] at h2
  exact absurd h2 (by decide)

/-- A stored content equal to the raw content whenever it fits the limit. -/
theorem truncate_of_le {s : String} {n : Nat} (h : s.length ≤ n) : truncate s n = s := by
  unfold truncate
  by_cases h0 : s = ""
  · rw [if_pos h0, h0]
  · rw [if_neg h0, if_pos h]

theorem getLast?_trim (m : List Message) (x : Message) (cap : Nat) :
    (if (m ++ [x]).length > cap then jsSliceNeg (m ++ [x]) cap else m ++ [x]).getLast?
      = some x := by
  split
  · unfold jsSliceNeg
    split
    · rw [List.getLast?_concat]
    · rename_i hlen hcap
      rw [List.length_append]
      have hle : m.length + [x].length - cap ≤ m.length := by
        simp only [List.length_cons, List.length_nil]
        omega
      rw [List.drop_append_of_le_length hle]
      rw [List.getLast?_concat]
  · rw [List.getLast?_concat]

theorem addMessage_dup_noop {cfg : Config} {st : Store} {sid role content : String}
    {ts : Option String} {now : Nat} {s : Session} {lastMsg : Message}
    (hl : st.lookup sid = some s) (hc : content ≠ "")
    (hg : s.messages.getLast? = some lastMsg)
    (hdup : lastMsg.content = content ∧ lastMsg.role = role) :
    addMessage cfg st sid role content ts now = st := by
  unfold addMessage
  rw [hl]
  dsimp only
  rw [if_neg hc, hg]
  dsimp only
  rw [if_pos hdup]

theorem addMessage_append {cfg : Config} {st : Store} {sid role content : String}
    {ts : Option String} {now : Nat} {s : Session}
    (hl : st.lookup sid = some s) (hc : content ≠ "")
    (hnd : ∀ lastMsg, s.messages.getLast? = some lastMsg →
      ¬(lastMsg.content = content ∧ lastMsg.role = role)) :
    addMessage cfg st sid role content ts now
      = addMessage.addMessageStore cfg st sid role content ts now := by
  unfold addMessage
  rw [hl]
  dsimp only
  rw [if_neg hc]
  cases hg : s.messages.getLast? with
  | none => dsimp only
  | some lastMsg =>
    dsimp only
    rw [if_neg (hnd lastMsg hg)]

theorem addMessageStore_lookup_shape {cfg : Config} {st : Store} {sid role content : String}
    {ts : Option String} {now : Nat} {s : Session}
    (hl : st.lookup sid = some s) :
    ∃ s', (addMessage.addMessageStore cfg st sid role content ts now).lookup sid = some s' ∧
      ∃ e, s'.messages.getLast? = some e ∧ e.content = truncate content 1000 ∧ e.role = role := by
  unfold addMessage.addMessageStore
  rw [lookup_update_self, hl, Option.map_some']
  exact ⟨_, rfl, _, getLast?_trim s.messages _ cfg.maxMessages, rfl, rfl⟩

theorem addMessageStore_lookup_small {cfg : Config} {st : Store} {sid role content : String}
    {ts : Option String} {now : Nat} {s : Session}
    (hl : st.lookup sid = some s) (hsmall : ¬ s.messages.length + 1 > cfg.maxMessages) :
    ∃ s', (addMessage.addMessageStore cfg st sid role content ts now).lookup sid = some s' ∧
      ∃ e, s'.messages = s.messages ++ [e] ∧ e.content = truncate content 1000 ∧
        e.role = role := by
  unfold addMessage.addMessageStore
  rw [lookup_update_self, hl, Option.map_some']
  refine ⟨_, rfl,
    { role := role, content := truncate content 1000,
      timestamp := if ts.getD "" = "" then toString now else ts.getD "", id := now },
    ?_, rfl, rfl⟩
  dsimp only
  rw [if_neg (by simp only [List.length_append, List.length_cons, List.length_nil]; omega)]

/-- C7 (amended): for an existing session and a non-empty content whose
    length is at most the 1000-character storage limit (so the stored content
    equals the raw content), the second of two consecutive `addMessage` calls
    with the same (role, content) pair is suppressed as a consecutive
    duplicate: it leaves the store unchanged, so exactly one entry is stored.
    For longer contents the stored (truncated) copy no longer compares equal
    and the duplicate check fails (see the counterexample), and empty content
    stores nothing at all. -/
theorem C7_duplicate_suppressed (cfg : Config) (st : Store) (sid role content : String)
    (ts1 ts2 : Option String) (now1 now2 : Nat) (s : Session)
    (hl : st.lookup sid = some s)
    (hc : content ≠ "") (hlen : content.length ≤ 1000) :
    addMessage cfg (addMessage cfg st sid role content ts1 now1) sid role content ts2 now2
      = addMessage cfg st sid role content ts1 now1 := by
  have htr := truncate_of_le hlen
  by_cases hdup : ∃ lastMsg, s.messages.getLast? = some lastMsg ∧
      lastMsg.content = content ∧ lastMsg.role = role
  · obtain ⟨lastMsg, hg, h1, h2⟩ := hdup
    rw [addMessage_dup_noop hl hc hg ⟨h1, h2⟩]
    exact addMessage_dup_noop hl hc hg ⟨h1, h2⟩
  · have hnd : ∀ lastMsg, s.messages.getLast? = some lastMsg →
        ¬(lastMsg.content = content ∧ lastMsg.role = role) :=
      fun lm hlm hcon => hdup ⟨lm, hlm, hcon.1, hcon.2⟩
    rw [addMessage_append hl hc hnd]
    obtain ⟨s', hls', e, hge, hec, her⟩ :=
      @addMessageStore_lookup_shape cfg st sid role content ts1 now1 s hl
    exact addMessage_dup_noop hls' hc hge ⟨by rw [hec, htr], her⟩

/-- Witness for the amended C7 at a short content. -/
theorem C7_duplicate_suppressed_witness :
    addMessage {} (addMessage {} c7store "s" "user" "hello" none 1) "s" "user" "hello" none 2
      = addMessage {} c7store "s" "user" "hello" none 1 :=
  C7_duplicate_suppressed {} c7store "s" "user" "hello" none none 1 2 (newSession "s" 0)
    (by decide) (by decide) (by decide)

/-- C7 counterexample: the claim fails for the empty content (nothing is
    stored at all) and for a 1001-character content (the stored copy is
    truncated, the duplicate check compares it against the raw content and
    fails, so the second call stores a second entry: 2 messages). -/
theorem C7_counterexample :
    (((addMessage {} c7store "s" "user" "" none 1).lookup "s").map
        (fun s => s.messages.length) = some 0) ∧
    (((addMessage {} (addMessage {} c7store "s" "user" longContent none 1)
        "s" "user" longContent none 2).lookup "s").map (fun s => s.messages.length)
      = some 2) := by
  constructor
  · decide
  · have hl0 : c7store.lookup "s" = some (newSession "s" 0) := by decide
    rw [addMessage_append hl0 longContent_ne_empty
      (fun lm hlm => by simp [newSession] at hlm)]
    obtain ⟨s1, hls1, e1, hm1, hec1, her1⟩ :=
      @addMessageStore_lookup_small {} c7store "s" "user" longContent none 1
        (newSession "s" 0) hl0 (by decide)
    have hge1 : s1.messages.getLast? = some e1 := by
      rw [hm1, List.getLast?_concat]
    rw [addMessage_append hls1 longContent_ne_empty
      (fun lm hlm hcon => by
        rw [hge1] at hlm
        injection hlm with he
        rw [← he] at hcon
        rw [hec1] at hcon
        exact truncate_longContent_ne hcon.1)]
    obtain ⟨s2, hls2, e2, hm2, hec2, her2⟩ :=
      @addMessageStore_lookup_small {} _ "s" "user" longContent none 2
        s1 hls1 (by rw [hm1]; simp [newSession])
    rw [hls2, Option.map_some', hm2, hm1]
    simp [newSession]

theorem string_drop_zero (s : String) : s.drop 0 = s := by
  rw [String.drop_eq]
  simp

theorem find?_setAssoc {α : Type} (l : List (String × α)) (k : String) (v : α) :
    (l.map (fun p => if p.1 = k then (k, v) else p)).find? (fun p => p.1 = k)
      = (l.find? (fun p => p.1 = k)).map (fun _ => (k, v)) := by
  induction l with
  | nil => rfl
  | cons a l ih =>
    by_cases h : a.1 = k <;> simp [List.find?_cons, h, ih]

theorem find?_append_none {α : Type} {l₁ l₂ : List α} {p : α → Bool}
    (h : l₁.find? p = none) : (l₁ ++ l₂).find? p = l₂.find? p := by
  induction l₁ with
  | nil => rfl
  | cons a l ih =>
    cases hpa : p a
    · rw [List.find?_cons_of_neg _ (by rw [hpa]; exact Bool.false_ne_true)] at h
      rw [List.cons_append, List.find?_cons_of_neg _ (by rw [hpa]; exact Bool.false_ne_true)]
      exact ih h
    · rw [List.find?_cons_of_pos _ hpa] at h
      cases h

theorem lookupAssoc_mapSet {α : Type} (l : List (String × α)) (k : String) (v : α) :
    lookupAssoc (mapSet l k v) k = some v := by
  unfold mapSet
  split
  · rename_i hpres
    unfold lookupAssoc setAssoc
    rw [find?_setAssoc]
    cases hf : l.find? (fun p => p.1 = k) with
    | none => rw [hf] at hpres; cases hpres
    | some p => rfl
  · unfold lookupAssoc
    rename_i habs
    have hnone : l.find? (fun p => p.1 = k) = none := by
      cases hf : l.find? (fun p => p.1 = k) with
      | none => rfl
      | some p => rw [hf] at habs; exact absurd rfl habs
    rw [find?_append_none hnone, List.find?_cons_of_pos _ (by simp)]
    rfl

/-- C8: when a poll sees the file size strictly below the tracked offset
    (truncation/rotation), it resets the offset to 0 and processes nothing in
    that cycle (the store is untouched; the model is total, so nothing is
    thrown); the next poll reads from offset 0, processing the whole new
    content and advancing the offset to its size. -/
theorem C8_truncation_reset (cfg : Config) (decode : String → Option Record)
    (fsys fsys2 : List (String × String)) (path : String) (now now2 : Nat)
    (fw : FW) (c c2 : String) (pos : Nat)
    (hfs : lookupAssoc fsys path = some c)
    (hpos : lookupAssoc fw.filePositions path = some pos)
    (hshrunk : c.length < pos)
    (hfs2 : lookupAssoc fsys2 path = some c2) (hc2 : c2.length ≠ 0) :
    (processNewLines cfg decode fsys path now fw).store = fw.store ∧
    lookupAssoc (processNewLines cfg decode fsys path now fw).filePositions path = some 0 ∧
    (processNewLines cfg decode fsys2 path now2
        (processNewLines cfg decode fsys path now fw)).store
      = ((c2.splitOn "\n").filter (fun l => l.trim ≠ "")).foldl
          (fun st line =>
            match decode line with
            | some data => processMessage cfg data path now2 st
            | none => st) fw.store ∧
    lookupAssoc
        (processNewLines cfg decode fsys2 path now2
          (processNewLines cfg decode fsys path now fw)).filePositions path
      = some c2.length := by
  have h1 : processNewLines cfg decode fsys path now fw
      = { fw with filePositions := mapSet fw.filePositions path 0 } := by
    unfold processNewLines
    rw [hfs]
    dsimp only
    rw [hpos]
    dsimp only [Option.getD]
    rw [if_pos hshrunk]
  refine ⟨by rw [h1], by rw [h1]; exact lookupAssoc_mapSet _ _ _, ?_, ?_⟩
  · rw [h1]
    unfold processNewLines
    rw [hfs2]
    dsimp only
    rw [lookupAssoc_mapSet]
    dsimp only [Option.getD]
    rw [if_neg (by omega), if_neg (fun h => hc2 h)]
    dsimp only
    rw [string_drop_zero]
  · rw [h1]
    unfold processNewLines
    rw [hfs2]
    dsimp only
    rw [lookupAssoc_mapSet]
    dsimp only [Option.getD]
    rw [if_neg (by omega), if_neg (fun h => hc2 h)]
    exact lookupAssoc_mapSet _ _ _

/-- Witness for C8: a 2-byte file tracked at offset 5 resets to 0 and leaves
    the store untouched. -/
theorem C8_truncation_reset_witness :
    (processNewLines {} (fun _ => none) [("f", "ab")] "f" 10
        { store := {}, filePositions := [("f", 5)] }).store
      = ({ store := {}, filePositions := [("f", 5)] } : FW).store :=
  (C8_truncation_reset {} (fun _ => none) [("f", "ab")] [("f", "xyz")] "f" 10 11
    { store := {}, filePositions := [("f", 5)] } "ab" "xyz" 5 rfl rfl (by decide) rfl
    (by decide)).1

theorem insertMtimeDesc_perm (e : FileEnt) (l : List FileEnt) :
    (insertMtimeDesc e l).Perm (e :: l) := by
  induction l with
  | nil => exact List.Perm.refl _
  | cons x xs ih =>
    unfold insertMtimeDesc
    split
    · exact (ih.cons x).trans (List.Perm.swap e x xs)
    · exact List.Perm.refl _

theorem sortByMtimeDesc_perm (l : List FileEnt) : (sortByMtimeDesc l).Perm l := by
  induction l with
  | nil => exact List.Perm.refl _
  | cons x xs ih =>
    exact (insertMtimeDesc_perm x (sortByMtimeDesc xs)).trans (ih.cons x)

theorem insertMtimeDesc_sorted {e : FileEnt} {l : List FileEnt}
    (h : l.Pairwise (fun a b => b.mtimeMs ≤ a.mtimeMs)) :
    (insertMtimeDesc e l).Pairwise (fun a b => b.mtimeMs ≤ a.mtimeMs) := by
  induction l with
  | nil => simp [insertMtimeDesc]
  | cons x xs ih =>
    rw [List.pairwise_cons] at h
    unfold insertMtimeDesc
    split
    · rename_i hle
      refine List.pairwise_cons.mpr ⟨?_, ih h.2⟩
      intro b hb
      rcases List.mem_cons.mp ((insertMtimeDesc_perm e xs).mem_iff.mp hb) with he | hx
      · rw [he]; exact hle
      · exact h.1 b hx
    · rename_i hgt
      refine List.pairwise_cons.mpr ⟨?_, List.pairwise_cons.mpr h⟩
      intro b hb
      rcases List.mem_cons.mp hb with he | hx
      · rw [he]; omega
      · have := h.1 b hx
        omega

theorem sortByMtimeDesc_sorted (l : List FileEnt) :
    (sortByMtimeDesc l).Pairwise (fun a b => b.mtimeMs ≤ a.mtimeMs) := by
  induction l with
  | nil => exact List.Pairwise.nil
  | cons x xs ih => exact insertMtimeDesc_sorted ih

/-- C9 counterexample: a fresh candidate file in a nested subdirectory of the
    log root is ignored by the startup scan — `readdirSync(PROJECTS_DIR)` is
    not recursive — although it lies under the root and is inside the age
    window, contradicting "considers every candidate log file anywhere under
    the log root recursively". -/
theorem C9_counterexample :
    scanCandidates {} "/root/.claude/projects"
        [{ dir := "/root/.claude/projects/proj1", name := "a.jsonl", mtimeMs := 100, size := 10 }]
        200 = [] ∧
    underRoot "/root/.claude/projects" "/root/.claude/projects/proj1" = true ∧
    200 - 100 < ({} : Config).maxFileAgeMs := by
  decide

/-- C9 (amended): the startup scan considers exactly the `.jsonl` files whose
    containing directory is the log root itself (the listing is not
    recursive); each candidate carries its stat data, the result is ordered
    by modification time descending, and every file whose age reaches the
    configured window is excluded. -/
theorem C9_scan_nonrecursive (cfg : Config) (projectsDir : String)
    (entries : List FileEnt) (now : Nat) :
    (∀ e, e ∈ scanCandidates cfg projectsDir entries now ↔
      e ∈ entries ∧ e.dir = projectsDir ∧ strEndsWith e.name ".jsonl" = true ∧
        now - e.mtimeMs < cfg.maxFileAgeMs) ∧
    (scanCandidates cfg projectsDir entries now).Pairwise
      (fun a b => b.mtimeMs ≤ a.mtimeMs) := by
  constructor
  · intro e
    unfold scanCandidates
    rw [List.mem_filter, (sortByMtimeDesc_perm _).mem_iff, List.mem_filter]
    constructor
    · rintro ⟨⟨he, hcond⟩, hage⟩
      simp only [decide_eq_true_eq] at hcond hage
      exact ⟨he, hcond.1, hcond.2, hage⟩
    · rintro ⟨he, hdir, hjson, hage⟩
      refine ⟨⟨he, ?_⟩, ?_⟩ <;> simp [hdir, hjson, hage]
  · exact List.Pairwise.sublist (List.filter_sublist _) (sortByMtimeDesc_sorted _)

/-- Witness for the amended C9: a top-level fresh file is a candidate. -/
theorem C9_scan_nonrecursive_witness :
    ({ dir := "/p", name := "a.jsonl", mtimeMs := 50, size := 1 } : FileEnt)
      ∈ scanCandidates {} "/p"
          [{ dir := "/p", name := "a.jsonl", mtimeMs := 50, size := 1 },
           { dir := "/p/sub", name := "b.jsonl", mtimeMs := 60, size := 1 }] 100 :=
  ((C9_scan_nonrecursive {} "/p"
      [{ dir := "/p", name := "a.jsonl", mtimeMs := 50, size := 1 },
       { dir := "/p/sub", name := "b.jsonl", mtimeMs := 60, size := 1 }] 100).1 _).mpr
    ⟨by decide, rfl, by decide, by decide⟩

theorem find?_append_first {α : Type} {l₁ l₂ : List α} {p : α → Bool} {a : α}
    (h : l₁.find? p = some a) : (l₁ ++ l₂).find? p = some a := by
  induction l₁ with
  | nil => cases h
  | cons x l ih =>
    cases hpx : p x
    · rw [List.find?_cons_of_neg _ (by simp [hpx])] at h
      rw [List.cons_append, List.find?_cons_of_neg _ (by simp [hpx])]
      exact ih h
    · rw [List.find?_cons_of_pos _ hpx] at h
      rw [List.cons_append, List.find?_cons_of_pos _ hpx]
      exact h

theorem lookup_create_absent {st : Store} {sid : String} (now : Nat)
    (h : st.lookup sid = none) :
    (getOrCreateSession st sid none now).lookup sid = some (newSession sid now) := by
  have hf : st.sessions.find? (fun p => p.1 = sid) = none := by
    unfold Store.lookup at h
    exact Option.map_eq_none'.mp h
  unfold getOrCreateSession
  rw [h]
  simp only [Option.isSome_none, Bool.false_eq_true, if_false]
  unfold Store.lookup
  dsimp only
  rw [find?_append_none hf, List.find?_cons_of_pos _ (by simp)]
  rfl

theorem lookup_getOrCreate_ne {st : Store} {sid k : String} (hk : k ≠ sid)
    (initTs : Option Nat) (now : Nat) :
    (getOrCreateSession st sid initTs now).lookup k = st.lookup k := by
  unfold getOrCreateSession
  split
  · split
    · exact lookup_update_ne _ _ _ hk _
    · rfl
  · unfold Store.lookup
    dsimp only
    cases hf : st.sessions.find? (fun p => p.1 = k) with
    | some a => rw [find?_append_first hf]
    | none =>
      rw [find?_append_none hf,
        List.find?_cons_of_neg _ (by simp only [decide_eq_true_eq]; exact fun h => hk h.symm)]
      rfl

theorem pmDispatch_none {cfg : Config} {eff : String} {now : Nat} {st : Store}
    (r : Record) (hr : r.rtype = none) : pmDispatch cfg eff r now st = st := by
  unfold pmDispatch
  rw [hr]
  rfl

theorem pmMeta_skip {eff : String} {now : Nat} {st : Store}
    (r : Record) (hcwd : r.cwd = none) (hbr : r.gitBranch = none) :
    pmMeta eff r now st = st := by
  unfold pmMeta
  rw [hcwd, hbr]
  rfl

theorem createSubAgent_existing {st : Store} {A P : String} {now : Nat}
    (h : (st.lookup A).isSome) : createSubAgent st A P now = st := by
  unfold createSubAgent
  cases hl : st.lookup A with
  | some s => rfl
  | none => rw [hl] at h; cases h

theorem lookup_setAgentMap (st : Store) (m : List (String × String)) (k : String) :
    ({ st with agentToSession := m }).lookup k = st.lookup k := rfl

theorem core_lookup (st : Store) (A P : String) (n : Nat) (k : String) :
    (createSubAgentCore st A P n).lookup k
      = ((getOrCreateSession st A none n).update A (fun s =>
          { s with agentId := some A, parentSessionId := some P,
                   isSubAgent := true })).lookup k := rfl

theorem createSubAgent_lookups {st : Store} {A P : String} (n : Nat) {p : Session}
    (hlA : st.lookup A = none) (hlP : st.lookup P = some p) (hAP : A ≠ P)
    (hmem : A ∉ p.subAgents) :
    ((createSubAgent st A P n).lookup A).map (fun s => (s.parentSessionId, s.isSubAgent))
        = some (some P, true) ∧
    ((createSubAgent st A P n).lookup P).map (fun s => s.subAgents.count A) = some 1 := by
  have hPA : P ≠ A := fun h => hAP h.symm
  unfold createSubAgent
  rw [hlA]
  dsimp only
  unfold linkSubAgent
  rw [core_lookup, lookup_update_ne _ _ _ hPA, lookup_getOrCreate_ne hPA, hlP]
  dsimp only
  rw [if_neg hmem]
  constructor
  · rw [lookup_update_ne _ _ _ hAP, core_lookup, lookup_update_self,
      lookup_create_absent n hlA]
    rfl
  · rw [lookup_update_self, core_lookup, lookup_update_ne _ _ _ hPA,
      lookup_getOrCreate_ne hPA, hlP]
    rw [Option.map_some', Option.map_some']
    dsimp only
    rw [List.count_append, List.count_eq_zero.mpr hmem]
    simp

/-- C3 counterexample: on an empty store, a record with `sessionId = "P"`,
    `agentId = "A"` creates session "A" with the sub-agent linkage fields set,
    but session "P" is NOT created: `linkSubAgent` silently does nothing when
    the parent is absent, so "P" has no `subAgents` list containing "A". -/
theorem C3_counterexample :
    ((processMessage {} { sessionId := some "P", agentId := some "A" }
        "/log/f.jsonl" 0 {}).lookup "A").map
        (fun s => (s.parentSessionId, s.isSubAgent)) = some (some "P", true) ∧
    (processMessage {} { sessionId := some "P", agentId := some "A" }
        "/log/f.jsonl" 0 {}).lookup "P" = none := by
  decide

/-- C3 (amended): when the parent session "P" already exists in the store
    (and "A" does not), processing a record with `sessionId = P`,
    `agentId = A`, `A ≠ P` creates session "A" with `parentSessionId = P` and
    `isSubAgent = true` and appends "A" exactly once to "P"'s `subAgents`;
    processing the same record a second time changes nothing.  On an empty
    store the parent is neither created nor linked (see the counterexample). -/
theorem C3_subagent_registration (cfg : Config) (st : Store) (path P A : String)
    (now now2 : Nat) (p : Session)
    (hA : A ≠ "") (hP : P ≠ "") (hAP : A ≠ P)
    (hlP : st.lookup P = some p) (hlA : st.lookup A = none) (hmem : A ∉ p.subAgents) :
    (((processMessage cfg { sessionId := some P, agentId := some A } path now st).lookup A).map
        (fun s => (s.parentSessionId, s.isSubAgent)) = some (some P, true)) ∧
    (((processMessage cfg { sessionId := some P, agentId := some A } path now st).lookup P).map
        (fun s => s.subAgents.count A) = some 1) ∧
    processMessage cfg { sessionId := some P, agentId := some A } path now2
        (processMessage cfg { sessionId := some P, agentId := some A } path now st)
      = processMessage cfg { sessionId := some P, agentId := some A } path now st := by
  have hsub : isSubRec { sessionId := some P, agentId := some A } path = true := by
    simp [isSubRec, truthyS, hA, hP, hAP]
  have heff : effId { sessionId := some P, agentId := some A } path = A := by
    simp [effId, hsub]
  have hpm : ∀ (st' : Store) (n : Nat),
      processMessage cfg { sessionId := some P, agentId := some A } path n st'
        = createSubAgent st' A P n := by
    intro st' n
    unfold processMessage
    rw [heff, if_neg hA, hsub, pmDispatch_none _ rfl, pmMeta_skip _ rfl rfl]
    unfold pmSubAgent
    rw [if_pos ⟨rfl, by simp [truthyS, hP], by simp [truthyS, hA]⟩]
    rfl
  have hcsa := createSubAgent_lookups now hlA hlP hAP hmem
  have hcsa1 := hcsa.1
  have hcsa2 := hcsa.2
  rw [hpm st now]
  refine ⟨hcsa1, hcsa2, ?_⟩
  rw [hpm (createSubAgent st A P now) now2]
  apply createSubAgent_existing
  obtain ⟨a, ha, -⟩ := Option.map_eq_some'.mp hcsa1
  rw [ha]
  rfl

/-- Witness for the amended C3: with parent "P" present, the record creates
    a linked sub-agent session "A". -/
theorem C3_subagent_registration_witness :
    ((processMessage {} { sessionId := some "P", agentId := some "A" }
        "/log/x.jsonl" 3 c3store).lookup "A").map
        (fun s => (s.parentSessionId, s.isSubAgent)) = some (some "P", true) :=
  (C3_subagent_registration {} c3store "/log/x.jsonl" "P" "A" 3 4 (newSession "P" 0)
    (by decide) (by decide) (by decide) (by decide) (by decide) (by decide)).1

/-! ## Monotonicity of the record-processing primitives (claim C2)

Every mutation reachable from `processMessage` keeps existing sessions in
the store and never unsets a set-once field (`model`, `version`, `cwd`,
`gitBranch`): each primitive is `MonoLe`-increasing. -/

theorem sessionMono_refl (s : Session) : sessionMono s s :=
  ⟨fun _ => rfl, fun _ => rfl, fun _ => rfl, fun _ => rfl⟩

theorem sessionMono_of_eqs {s sNew : Session} (hm : sNew.model = s.model)
    (hv : sNew.version = s.version) (hc : sNew.cwd = s.cwd)
    (hg : sNew.gitBranch = s.gitBranch) : sessionMono s sNew :=
  ⟨fun _ => hm, fun _ => hv, fun _ => hc, fun _ => hg⟩

theorem sessionMono_trans {a b c : Session} (h1 : sessionMono a b)
    (h2 : sessionMono b c) : sessionMono a c := by
  obtain ⟨m1, v1, c1, g1⟩ := h1
  obtain ⟨m2, v2, c2, g2⟩ := h2
  refine ⟨fun h => ?_, fun h => ?_, fun h => ?_, fun h => ?_⟩
  · have hb := m1 h
    rw [m2 (by rw [hb]; exact h), hb]
  · have hb := v1 h
    rw [v2 (by rw [hb]; exact h), hb]
  · have hb := c1 h
    rw [c2 (by rw [hb]; exact h), hb]
  · have hb := g1 h
    rw [g2 (by rw [hb]; exact h), hb]

theorem monoLe_refl (st : Store) : MonoLe st st :=
  fun _ s h => ⟨s, h, sessionMono_refl s⟩

theorem monoLe_trans {a b c : Store} (h1 : MonoLe a b) (h2 : MonoLe b c) :
    MonoLe a c := by
  intro k s h
  obtain ⟨s1, hl1, hm1⟩ := h1 k s h
  obtain ⟨s2, hl2, hm2⟩ := h2 k s1 hl1
  exact ⟨s2, hl2, sessionMono_trans hm1 hm2⟩

theorem monoLe_isSome {st st2 : Store} (hm : MonoLe st st2) {k : String}
    (h : (st.lookup k).isSome = true) : (st2.lookup k).isSome = true := by
  obtain ⟨s, hl⟩ := Option.isSome_iff_exists.mp h
  obtain ⟨s2, hl2, -⟩ := hm k s hl
  rw [hl2]
  rfl

theorem monoLe_update {st : Store} {sid : String} {f : Session → Session}
    (hf : ∀ s, sessionMono s (f s)) : MonoLe st (st.update sid f) := by
  intro k s h
  by_cases hk : k = sid
  · subst hk
    refine ⟨f s, ?_, hf s⟩
    rw [lookup_update_self, h]
    rfl
  · exact ⟨s, by rw [lookup_update_ne _ _ _ hk]; exact h, sessionMono_refl s⟩

theorem monoLe_append (st : Store) (q : String × Session) :
    MonoLe st { st with sessions := st.sessions ++ [q] } := by
  intro k s h
  refine ⟨s, ?_, sessionMono_refl s⟩
  unfold Store.lookup at h ⊢
  obtain ⟨p, hp, hps⟩ := Option.map_eq_some'.mp h
  rw [find?_append_first hp, Option.map_some', hps]

theorem monoLe_getOrCreate (st : Store) (sid : String) (its : Option Nat) (now : Nat) :
    MonoLe st (getOrCreateSession st sid its now) := by
  unfold getOrCreateSession
  split
  · split
    · exact monoLe_update (fun s => sessionMono_of_eqs rfl rfl rfl rfl)
    · exact monoLe_refl st
  · exact monoLe_append st _

theorem monoLe_updateModelInfo (st : Store) (sid model : String)
    (version : Option String) (now : Nat) :
    MonoLe st (updateModelInfo st sid model version now) := by
  unfold updateModelInfo
  refine monoLe_trans (monoLe_getOrCreate st sid none now) (monoLe_update ?_)
  intro s
  dsimp only
  by_cases h1 : model ≠ "" ∧ s.model = none
  · rw [if_pos h1]
    split
    · rename_i h2
      refine ⟨fun h => ?_, fun h => ?_, fun _ => rfl, fun _ => rfl⟩
      · rw [h1.2] at h
        simp at h
      · have h2v : s.version = none := h2.2
        rw [h2v] at h
        simp at h
    · exact ⟨fun h => by rw [h1.2] at h; simp at h, fun _ => rfl, fun _ => rfl, fun _ => rfl⟩
  · rw [if_neg h1]
    split
    · rename_i h2
      refine ⟨fun _ => rfl, fun h => ?_, fun _ => rfl, fun _ => rfl⟩
      rw [h2.2] at h
      simp at h
    · exact sessionMono_refl s

theorem monoLe_updateCwd (st : Store) (sid cwd : String) (now : Nat) :
    MonoLe st (updateCwd st sid cwd now) := by
  unfold updateCwd
  refine monoLe_trans (monoLe_getOrCreate st sid none now) (monoLe_update ?_)
  intro s
  dsimp only
  split
  · rename_i h
    refine ⟨fun _ => rfl, fun _ => rfl, fun hc => ?_, fun _ => rfl⟩
    rw [h.2] at hc
    simp at hc
  · exact sessionMono_refl s

theorem monoLe_updateGitBranch (st : Store) (sid branch : String) (now : Nat) :
    MonoLe st (updateGitBranch st sid branch now) := by
  unfold updateGitBranch
  refine monoLe_trans (monoLe_getOrCreate st sid none now) (monoLe_update ?_)
  intro s
  dsimp only
  split
  · rename_i h
    refine ⟨fun _ => rfl, fun _ => rfl, fun _ => rfl, fun hg => ?_⟩
    rw [h.2] at hg
    simp at hg
  · exact sessionMono_refl s

theorem monoLe_updateTokenUsage (st : Store) (sid : String) (usage : Option Usage)
    (now : Nat) : MonoLe st (updateTokenUsage st sid usage now) := by
  unfold updateTokenUsage
  split
  · exact monoLe_update (fun s => sessionMono_of_eqs rfl rfl rfl rfl)
  · exact monoLe_refl st

theorem monoLe_addMessageStore (cfg : Config) (st : Store) (sid role content : String)
    (ts : Option String) (now : Nat) :
    MonoLe st (addMessage.addMessageStore cfg st sid role content ts now) :=
  monoLe_update (fun s => sessionMono_of_eqs rfl rfl rfl rfl)

theorem monoLe_addMessage (cfg : Config) (st : Store) (sid role content : String)
    (ts : Option String) (now : Nat) :
    MonoLe st (addMessage cfg st sid role content ts now) := by
  unfold addMessage
  split
  · exact monoLe_refl st
  · split
    · exact monoLe_refl st
    · split
      · split
        · exact monoLe_refl st
        · exact monoLe_addMessageStore cfg st sid role content ts now
      · exact monoLe_addMessageStore cfg st sid role content ts now

theorem monoLe_linkSubAgent (st : Store) (parentSessionId agentId : String) :
    MonoLe st (linkSubAgent st parentSessionId agentId) := by
  unfold linkSubAgent
  split
  · exact monoLe_refl st
  · split
    · exact monoLe_refl st
    · exact monoLe_update (fun p => sessionMono_of_eqs rfl rfl rfl rfl)

theorem monoLe_createSubAgentCore (st : Store) (A P : String) (n : Nat) :
    MonoLe st (createSubAgentCore st A P n) := by
  intro k s h
  obtain ⟨s2, hl2, hm2⟩ :=
    monoLe_trans (monoLe_getOrCreate st A none n)
      (@monoLe_update (getOrCreateSession st A none n) A
        (fun s => { s with agentId := some A, parentSessionId := some P,
                           isSubAgent := true })
        (fun s => sessionMono_of_eqs rfl rfl rfl rfl)) k s h
  exact ⟨s2, hl2, hm2⟩

theorem monoLe_createSubAgent (st : Store) (A P : String) (n : Nat) :
    MonoLe st (createSubAgent st A P n) := by
  unfold createSubAgent
  split
  · exact monoLe_refl st
  · exact monoLe_trans (monoLe_createSubAgentCore st A P n) (monoLe_linkSubAgent _ P A)

theorem monoLe_completeTool (cfg : Config) (st : Store) (sid toolName status : String)
    (details : Details) (now : Nat) :
    MonoLe st (completeTool cfg st sid toolName status details now) := by
  unfold completeTool
  split
  · exact monoLe_refl st
  · split
    · exact monoLe_refl st
    · exact monoLe_update (fun s => sessionMono_of_eqs rfl rfl rfl rfl)

theorem monoLe_startTool (cfg : Config) (st : Store) (sid toolName : String)
    (details : Details) (now : Nat) :
    MonoLe st (startTool cfg st sid toolName details now) := by
  unfold startTool
  dsimp only
  refine monoLe_trans (monoLe_getOrCreate st sid none now)
    (monoLe_trans ?_ (monoLe_update (fun s => sessionMono_of_eqs rfl rfl rfl rfl)))
  split
  · split
    · split
      · exact monoLe_completeTool cfg _ sid _ "completed" [] now
      · exact monoLe_refl _
    · exact monoLe_refl _
  · exact monoLe_refl _

theorem monoLe_completeSession (cfg : Config) (st : Store) (sid : String) (now : Nat) :
    MonoLe st (completeSession cfg st sid now) := by
  unfold completeSession
  split
  · exact monoLe_refl st
  · dsimp only
    refine monoLe_trans ?_ (monoLe_update (fun s => sessionMono_of_eqs rfl rfl rfl rfl))
    split
    · split
      · exact monoLe_completeTool cfg st sid _ "completed" [] now
      · exact monoLe_refl st
    · exact monoLe_refl st

theorem monoLe_updateSessionPrompt (st : Store) (sid prompt : String) (now : Nat) :
    MonoLe st (updateSessionPrompt st sid prompt now) := by
  unfold updateSessionPrompt
  exact monoLe_trans (monoLe_getOrCreate st sid none now)
    (monoLe_update (fun s => sessionMono_of_eqs rfl rfl rfl rfl))

theorem monoLe_foldl {β : Type} (f : Store → β → Store)
    (hf : ∀ st b, MonoLe st (f st b)) :
    ∀ (l : List β) (st : Store), MonoLe st (l.foldl f st) := by
  intro l
  induction l with
  | nil => intro st; exact monoLe_refl st
  | cons x xs ih => intro st; exact monoLe_trans (hf st x) (ih (f st x))

theorem monoLe_handleToolUse (cfg : Config) (sid : String) (toolUse : ContentBlock)
    (ts : Option String) (now : Nat) (st : Store) :
    MonoLe st (handleToolUse cfg sid toolUse ts now st) :=
  monoLe_startTool cfg st sid _ _ now

theorem monoLe_handleUserMessage (cfg : Config) (sid : String) (data : Record)
    (now : Nat) (st : Store) : MonoLe st (handleUserMessage cfg sid data now st) := by
  unfold handleUserMessage
  split
  · split
    · exact monoLe_trans (monoLe_updateSessionPrompt st sid _ now)
        (monoLe_addMessage cfg _ sid "user" _ data.timestamp now)
    · exact monoLe_refl st
  · exact monoLe_refl st

theorem monoLe_assistantModelStep (sid : String) (data : Record) (now : Nat)
    (st : Store) : MonoLe st (assistantModelStep sid data now st) := by
  unfold assistantModelStep
  split
  · split
    · exact monoLe_updateModelInfo st sid _ data.version now
    · exact monoLe_refl st
  · exact monoLe_refl st

theorem monoLe_assistantUsageStep (sid : String) (data : Record) (now : Nat)
    (st : Store) : MonoLe st (assistantUsageStep sid data now st) := by
  unfold assistantUsageStep
  split
  · split
    · exact monoLe_updateTokenUsage st sid _ now
    · exact monoLe_refl st
  · exact monoLe_refl st

theorem monoLe_assistantBlocksStep (cfg : Config) (sid : String) (data : Record)
    (ts : Option String) (now : Nat) (st : Store) :
    MonoLe st (assistantBlocksStep cfg sid data ts now st) := by
  unfold assistantBlocksStep
  split
  · refine monoLe_foldl _ ?_ _ st
    intro st b
    split
    · exact monoLe_addMessage cfg st sid "assistant" _ ts now
    · split
      · exact monoLe_handleToolUse cfg sid b ts now st
      · exact monoLe_refl st
  · exact monoLe_refl st

theorem monoLe_handleAssistantMessage (cfg : Config) (sid : String) (data : Record)
    (ts : Option String) (now : Nat) (st : Store) :
    MonoLe st (handleAssistantMessage cfg sid data ts now st) :=
  monoLe_trans (monoLe_assistantModelStep sid data now st)
    (monoLe_trans (monoLe_assistantUsageStep sid data now _)
      (monoLe_assistantBlocksStep cfg sid data ts now _))

theorem monoLe_handleToolResult (cfg : Config) (sid : String) (data : Record)
    (now : Nat) (st : Store) : MonoLe st (handleToolResult cfg sid data now st) := by
  unfold handleToolResult
  split
  · split
    · exact monoLe_completeTool cfg st sid _ _ [] now
    · exact monoLe_refl st
  · exact monoLe_refl st

theorem monoLe_pmSubAgent (data : Record) (isSub : Bool) (now : Nat) (st : Store) :
    MonoLe st (pmSubAgent data isSub now st) := by
  unfold pmSubAgent
  split
  · exact monoLe_createSubAgent st _ _ now
  · exact monoLe_refl st

theorem monoLe_pmMeta (eff : String) (data : Record) (now : Nat) (st : Store) :
    MonoLe st (pmMeta eff data now st) := by
  unfold pmMeta
  dsimp only
  split
  · refine monoLe_trans ?_ (monoLe_updateGitBranch _ eff _ now)
    split
    · exact monoLe_updateCwd st eff _ now
    · exact monoLe_refl st
  · split
    · exact monoLe_updateCwd st eff _ now
    · exact monoLe_refl st

theorem monoLe_pmDispatch (cfg : Config) (eff : String) (data : Record) (now : Nat)
    (st : Store) : MonoLe st (pmDispatch cfg eff data now st) := by
  unfold pmDispatch
  split
  · exact monoLe_handleUserMessage cfg eff data now st
  · exact monoLe_handleAssistantMessage cfg eff data data.timestamp now st
  · exact monoLe_handleToolResult cfg eff data now st
  · exact monoLe_completeSession cfg st eff now
  · split
    · exact monoLe_getOrCreate st eff none now
    · exact monoLe_refl st
  · exact monoLe_refl st

theorem monoLe_processMessage (cfg : Config) (data : Record) (path : String)
    (now : Nat) (st : Store) : MonoLe st (processMessage cfg data path now st) := by
  unfold processMessage
  split
  · exact monoLe_refl st
  · exact monoLe_trans (monoLe_pmSubAgent data _ now st)
      (monoLe_trans (monoLe_pmMeta _ data now _) (monoLe_pmDispatch cfg _ data now _))

theorem processRecords_cons (cfg : Config) (path : String) (st : Store)
    (x : Record × Nat) (xs : List (Record × Nat)) :
    processRecords cfg path st (x :: xs)
      = processRecords cfg path (processMessage cfg x.1 path x.2 st) xs := rfl

theorem monoLe_processRecords (cfg : Config) (path : String) :
    ∀ (recs : List (Record × Nat)) (st : Store),
      MonoLe st (processRecords cfg path st recs) := by
  intro recs
  induction recs with
  | nil => intro st; exact monoLe_refl st
  | cons x xs ih =>
    intro st
    rw [processRecords_cons]
    exact monoLe_trans (monoLe_processMessage cfg x.1 path x.2 st) (ih _)

/-! ## Saturation: processing a record exhausts its creation and set-once
effects, and saturation is stable under monotone store growth. -/

theorem cwdPost_mono {st st2 : Store} {k : String} (hm : MonoLe st st2)
    (h : ∃ s, st.lookup k = some s ∧ s.cwd.isSome = true) :
    ∃ s, st2.lookup k = some s ∧ s.cwd.isSome = true := by
  obtain ⟨s, hl, hc⟩ := h
  obtain ⟨s2, hl2, hmono⟩ := hm k s hl
  exact ⟨s2, hl2, by rw [hmono.2.2.1 hc]; exact hc⟩

theorem gitPost_mono {st st2 : Store} {k : String} (hm : MonoLe st st2)
    (h : ∃ s, st.lookup k = some s ∧ s.gitBranch.isSome = true) :
    ∃ s, st2.lookup k = some s ∧ s.gitBranch.isSome = true := by
  obtain ⟨s, hl, hc⟩ := h
  obtain ⟨s2, hl2, hmono⟩ := hm k s hl
  exact ⟨s2, hl2, by rw [hmono.2.2.2 hc]; exact hc⟩

theorem modelPost_mono {st st2 : Store} {k : String} {version : Option String}
    (hm : MonoLe st st2)
    (h : ∃ s, st.lookup k = some s ∧ s.model.isSome = true ∧
          (truthyS version = true → s.version.isSome = true)) :
    ∃ s, st2.lookup k = some s ∧ s.model.isSome = true ∧
      (truthyS version = true → s.version.isSome = true) := by
  obtain ⟨s, hl, hmod, hver⟩ := h
  obtain ⟨s2, hl2, hmono⟩ := hm k s hl
  refine ⟨s2, hl2, by rw [hmono.1 hmod]; exact hmod, fun hv => ?_⟩
  rw [hmono.2.1 (hver hv)]
  exact hver hv

theorem saturated_mono {data : Record} {path : String} {st st2 : Store}
    (hs : Saturated data path st) (hm : MonoLe st st2) :
    Saturated data path st2 := by
  cases hs with
  | inl h => exact Or.inl h
  | inr h =>
    obtain ⟨h1, h2, h3, h4, h5, h6, h7⟩ := h
    refine Or.inr ⟨fun hc => monoLe_isSome hm (h1 hc),
      fun hc => cwdPost_mono hm (h2 hc),
      fun hc => gitPost_mono hm (h3 hc),
      fun ha m hmm hmod => modelPost_mono hm (h4 ha m hmm hmod),
      fun hu c hc ht hw => monoLe_isSome hm (h5 hu c hc ht hw),
      fun ha bs hbs hex => monoLe_isSome hm (h6 ha bs hbs hex),
      fun hq hd => monoLe_isSome hm (h7 hq hd)⟩

theorem getOrCreate_isSome (st : Store) (sid : String) (now : Nat) :
    ((getOrCreateSession st sid none now).lookup sid).isSome = true := by
  cases hl : st.lookup sid with
  | none => rw [lookup_create_absent now hl]; rfl
  | some s => rw [getOrCreate_existing now hl, lookup_update_self, hl]; rfl

theorem updateCwd_post (st : Store) (sid cwd : String) (now : Nat) (hc : cwd ≠ "") :
    ∃ s, (updateCwd st sid cwd now).lookup sid = some s ∧ s.cwd.isSome = true := by
  unfold updateCwd
  dsimp only
  rw [lookup_update_self]
  obtain ⟨s, hl⟩ := Option.isSome_iff_exists.mp (getOrCreate_isSome st sid now)
  rw [hl, Option.map_some']
  refine ⟨_, rfl, ?_⟩
  split
  · rfl
  · rename_i h
    cases hcw : s.cwd with
    | none => exact absurd ⟨hc, hcw⟩ h
    | some v => rfl

theorem updateGitBranch_post (st : Store) (sid branch : String) (now : Nat)
    (hb : branch ≠ "") :
    ∃ s, (updateGitBranch st sid branch now).lookup sid = some s ∧
      s.gitBranch.isSome = true := by
  unfold updateGitBranch
  dsimp only
  rw [lookup_update_self]
  obtain ⟨s, hl⟩ := Option.isSome_iff_exists.mp (getOrCreate_isSome st sid now)
  rw [hl, Option.map_some']
  refine ⟨_, rfl, ?_⟩
  split
  · rfl
  · rename_i h
    cases hgb : s.gitBranch with
    | none => exact absurd ⟨hb, hgb⟩ h
    | some v => rfl

theorem updateModelInfo_post (st : Store) (sid model : String)
    (version : Option String) (now : Nat) (hm : model ≠ "") :
    ∃ s, (updateModelInfo st sid model version now).lookup sid = some s ∧
      s.model.isSome = true ∧ (truthyS version = true → s.version.isSome = true) := by
  unfold updateModelInfo
  dsimp only
  rw [lookup_update_self]
  obtain ⟨s, hl⟩ := Option.isSome_iff_exists.mp (getOrCreate_isSome st sid now)
  rw [hl, Option.map_some']
  refine ⟨_, rfl, ?_, ?_⟩
  · by_cases hmc : model ≠ "" ∧ s.model = none
    · rw [if_pos hmc]
      split
      · rfl
      · rfl
    · rw [if_neg hmc]
      split
      · show s.model.isSome = true
        cases hsm : s.model with
        | none => exact absurd ⟨hm, hsm⟩ hmc
        | some v => rfl
      · show s.model.isSome = true
        cases hsm : s.model with
        | none => exact absurd ⟨hm, hsm⟩ hmc
        | some v => rfl
  · intro hv
    by_cases hmc : model ≠ "" ∧ s.model = none
    · rw [if_pos hmc]
      split
      · cases version with
        | none => simp [truthyS] at hv
        | some v => rfl
      · rename_i h2
        show s.version.isSome = true
        cases hsv : s.version with
        | none => exact absurd ⟨of_decide_eq_true hv, hsv⟩ h2
        | some v => rfl
    · rw [if_neg hmc]
      split
      · cases version with
        | none => simp [truthyS] at hv
        | some v => rfl
      · rename_i h2
        show s.version.isSome = true
        cases hsv : s.version with
        | none => exact absurd ⟨of_decide_eq_true hv, hsv⟩ h2
        | some v => rfl

theorem updateSessionPrompt_post (st : Store) (sid prompt : String) (now : Nat) :
    ((updateSessionPrompt st sid prompt now).lookup sid).isSome = true := by
  unfold updateSessionPrompt
  dsimp only
  rw [lookup_update_self]
  obtain ⟨s, hl⟩ := Option.isSome_iff_exists.mp (getOrCreate_isSome st sid now)
  rw [hl]
  rfl

theorem startTool_isSome (cfg : Config) (st : Store) (sid toolName : String)
    (details : Details) (now : Nat) :
    ((startTool cfg st sid toolName details now).lookup sid).isSome = true := by
  unfold startTool
  dsimp only
  rw [lookup_update_self]
  have hmap : ∀ (o : Option Session) (f : Session → Session),
      o.isSome = true → (o.map f).isSome = true := by
    intro o f ho
    cases o with
    | none => cases ho
    | some s => rfl
  apply hmap
  split
  · rename_i s hs
    split
    · split
      · exact monoLe_isSome (monoLe_completeTool cfg _ sid _ "completed" [] now)
          (by rw [hs]; rfl)
      · rw [hs]; rfl
    · rw [hs]; rfl
  · exact getOrCreate_isSome st sid now

theorem handleToolUse_isSome (cfg : Config) (sid : String) (toolUse : ContentBlock)
    (ts : Option String) (now : Nat) (st : Store) :
    ((handleToolUse cfg sid toolUse ts now st).lookup sid).isSome = true := by
  unfold handleToolUse
  exact startTool_isSome cfg st sid _ _ now

theorem createSubAgent_isSome (st : Store) (A P : String) (n : Nat) :
    ((createSubAgent st A P n).lookup A).isSome = true := by
  unfold createSubAgent
  cases hl : st.lookup A with
  | some s =>
    show (st.lookup A).isSome = true
    rw [hl]
    rfl
  | none =>
    show ((linkSubAgent (createSubAgentCore st A P n) P A).lookup A).isSome = true
    unfold linkSubAgent
    cases hp : (createSubAgentCore st A P n).lookup P with
    | none =>
      dsimp only
      rw [core_lookup, lookup_update_self, lookup_create_absent n hl]
      rfl
    | some parent =>
      dsimp only
      split
      · rw [core_lookup, lookup_update_self, lookup_create_absent n hl]
        rfl
      · by_cases hap : A = P
        · subst hap
          rw [lookup_update_self, hp]
          rfl
        · rw [lookup_update_ne _ _ _ hap, core_lookup, lookup_update_self,
            lookup_create_absent n hl]
          rfl

theorem blocksFold_isSome (cfg : Config) (sid : String) (ts : Option String)
    (now : Nat) :
    ∀ (bs : List ContentBlock) (st : Store), (∃ b ∈ bs, b.btype = "tool_use") →
      ((bs.foldl (fun st block =>
          if block.btype = "text" ∧ truthyS block.text then
            addMessage cfg st sid "assistant" (block.text.getD "") ts now
          else if block.btype = "tool_use" then
            handleToolUse cfg sid block ts now st
          else st) st).lookup sid).isSome = true := by
  intro bs
  induction bs with
  | nil =>
    intro st h
    obtain ⟨b, hb, -⟩ := h
    exact absurd hb (List.not_mem_nil b)
  | cons x xs ih =>
    intro st h
    rw [List.foldl_cons]
    by_cases hx : ∃ b ∈ xs, b.btype = "tool_use"
    · exact ih _ hx
    · obtain ⟨b, hb, hbt⟩ := h
      have hbx : b = x := by
        cases List.mem_cons.mp hb with
        | inl h1 => exact h1
        | inr h2 => exact absurd ⟨b, h2, hbt⟩ hx
      have hxt : x.btype = "tool_use" := hbx ▸ hbt
      have h1 : ¬(x.btype = "text" ∧ truthyS x.text = true) := by
        rintro ⟨ht, -⟩
        rw [ht] at hxt
        exact absurd hxt (by decide)
      rw [if_neg h1, if_pos hxt]
      exact monoLe_isSome
        (monoLe_foldl _ (fun st b => by
          split
          · exact monoLe_addMessage cfg st sid "assistant" _ ts now
          · split
            · exact monoLe_handleToolUse cfg sid b ts now st
            · exact monoLe_refl st) xs _)
        (handleToolUse_isSome cfg sid x ts now st)

theorem pmDispatch_assistant {cfg : Config} {eff : String} {data : Record}
    {now : Nat} {st : Store} (ha : data.rtype.getD "" = "assistant") :
    pmDispatch cfg eff data now st
      = handleAssistantMessage cfg eff data data.timestamp now st := by
  unfold pmDispatch
  rw [ha]
  rfl

theorem pmDispatch_user {cfg : Config} {eff : String} {data : Record}
    {now : Nat} {st : Store} (hu : data.rtype.getD "" = "user") :
    pmDispatch cfg eff data now st = handleUserMessage cfg eff data now st := by
  unfold pmDispatch
  rw [hu]
  rfl

theorem pmDispatch_queue {cfg : Config} {eff : String} {data : Record}
    {now : Nat} {st : Store} (hq : data.rtype.getD "" = "queue-operation") :
    pmDispatch cfg eff data now st
      = if data.operation.getD "" = "dequeue" then getOrCreateSession st eff none now
        else st := by
  unfold pmDispatch
  rw [hq]
  rfl

theorem processMessage_saturates (cfg : Config) (data : Record) (path : String)
    (n : Nat) (st : Store) :
    Saturated data path (processMessage cfg data path n st) := by
  by_cases he : effId data path = ""
  · exact Or.inl he
  right
  unfold processMessage
  rw [if_neg he]
  refine ⟨?_, ?_, ?_, ?_, ?_, ?_, ?_⟩
  · rintro ⟨hsub, hsid, haid⟩
    refine monoLe_isSome (monoLe_pmDispatch _ _ _ _ _)
      (monoLe_isSome (monoLe_pmMeta _ _ _ _) ?_)
    unfold pmSubAgent
    rw [if_pos ⟨hsub, hsid, haid⟩]
    exact createSubAgent_isSome st _ _ n
  · intro hcwd
    have hc : data.cwd.getD "" ≠ "" := of_decide_eq_true hcwd
    refine cwdPost_mono (monoLe_pmDispatch _ _ _ _ _) ?_
    unfold pmMeta
    dsimp only
    rw [if_pos hcwd]
    split
    · exact cwdPost_mono (monoLe_updateGitBranch _ _ _ _) (updateCwd_post _ _ _ _ hc)
    · exact updateCwd_post _ _ _ _ hc
  · intro hgb
    have hg : data.gitBranch.getD "" ≠ "" := of_decide_eq_true hgb
    refine gitPost_mono (monoLe_pmDispatch _ _ _ _ _) ?_
    unfold pmMeta
    dsimp only
    rw [if_pos hgb]
    exact updateGitBranch_post _ _ _ _ hg
  · intro ha m hmsg hmodel
    rw [pmDispatch_assistant ha]
    unfold handleAssistantMessage
    refine modelPost_mono
      (monoLe_trans (monoLe_assistantUsageStep _ _ _ _)
        (monoLe_assistantBlocksStep _ _ _ _ _ _)) ?_
    unfold assistantModelStep
    rw [hmsg]
    dsimp only
    rw [if_pos hmodel]
    exact updateModelInfo_post _ _ _ _ _ (of_decide_eq_true hmodel)
  · intro hu c hcontent htrim hwarm
    rw [pmDispatch_user hu]
    unfold handleUserMessage
    rw [hcontent]
    dsimp only
    rw [if_pos ⟨htrim, hwarm⟩]
    exact monoLe_isSome (monoLe_addMessage _ _ _ _ _ _ _)
      (updateSessionPrompt_post _ _ _ _)
  · intro ha bs hblocks hex
    rw [pmDispatch_assistant ha]
    unfold handleAssistantMessage assistantBlocksStep
    rw [hblocks]
    dsimp only
    exact blocksFold_isSome cfg _ data.timestamp n bs _ hex
  · intro hq hdq
    rw [pmDispatch_queue hq, if_pos hdq]
    exact getOrCreate_isSome _ _ _

theorem processRecords_saturates (cfg : Config) (path : String) :
    ∀ (recs : List (Record × Nat)) (st : Store),
      ∀ rn ∈ recs, Saturated rn.1 path (processRecords cfg path st recs) := by
  intro recs
  induction recs with
  | nil =>
    intro st rn h
    exact absurd h (List.not_mem_nil rn)
  | cons x xs ih =>
    intro st rn h
    rw [processRecords_cons]
    cases List.mem_cons.mp h with
    | inl hx =>
      subst hx
      exact saturated_mono (processMessage_saturates cfg rn.1 path rn.2 st)
        (monoLe_processRecords cfg path xs _)
    | inr hxs => exact ih (processMessage cfg x.1 path x.2 st) rn hxs

/-! ## Stability: on a saturated store, reprocessing a record leaves the
replay-stable projection of every session unchanged. -/

theorem stableView_update {st : Store} {sid : String} {f : Session → Session}
    (hf : ∀ s, (f s).stable = s.stable) :
    stableView (st.update sid f) = stableView st := by
  unfold stableView Store.update
  dsimp only
  rw [List.map_map]
  apply List.map_congr_left
  intro p hp
  simp only [Function.comp_apply]
  by_cases hk : p.1 = sid
  · rw [if_pos hk]
    dsimp only
    rw [hf p.2, hk]
  · rw [if_neg hk]

theorem stableView_update_pt {st : Store} {sid : String} {f : Session → Session}
    {s0 : Session} (hnd : (st.sessions.map Prod.fst).Nodup)
    (hl : st.lookup sid = some s0) (hf : (f s0).stable = s0.stable) :
    stableView (st.update sid f) = stableView st := by
  unfold stableView Store.update
  dsimp only
  rw [List.map_map]
  apply List.map_congr_left
  intro p hp
  simp only [Function.comp_apply]
  by_cases hk : p.1 = sid
  · rw [if_pos hk]
    dsimp only
    have hps : st.lookup sid = some p.2 := by
      rw [← hk]
      exact lookup_of_mem_nodup hnd hp
    rw [hl] at hps
    injection hps with he
    rw [← he, hf, hk]
  · rw [if_neg hk]

theorem keys_eq_of_stableView_eq {a b : Store} (h : stableView a = stableView b) :
    a.sessions.map Prod.fst = b.sessions.map Prod.fst := by
  have h2 : (stableView a).map Prod.fst = (stableView b).map Prod.fst := by rw [h]
  have h3 : ∀ (l : List (String × Session)),
      (l.map (fun p => (p.1, p.2.stable))).map Prod.fst = l.map Prod.fst := by
    intro l
    rw [List.map_map]
    rfl
  rwa [stableView, stableView, h3, h3] at h2

theorem getOrCreate_stable {st : Store} {sid : String} {now : Nat}
    (h : (st.lookup sid).isSome = true) :
    stableView (getOrCreateSession st sid none now) = stableView st := by
  obtain ⟨s, hl⟩ := Option.isSome_iff_exists.mp h
  rw [getOrCreate_existing now hl]
  exact stableView_update (fun s => rfl)

theorem updateSessionPrompt_stable (st : Store) (sid prompt : String) (now : Nat)
    (h : (st.lookup sid).isSome = true) :
    stableView (updateSessionPrompt st sid prompt now) = stableView st := by
  obtain ⟨s, hl⟩ := Option.isSome_iff_exists.mp h
  unfold updateSessionPrompt
  dsimp only
  rw [getOrCreate_existing now hl]
  exact Eq.trans (stableView_update (fun s => rfl)) (stableView_update (fun s => rfl))

theorem addMessage_stable (cfg : Config) (st : Store) (sid role content : String)
    (ts : Option String) (now : Nat) :
    stableView (addMessage cfg st sid role content ts now) = stableView st := by
  unfold addMessage
  split
  · rfl
  · split
    · rfl
    · split
      · split
        · rfl
        · exact stableView_update (fun s => rfl)
      · exact stableView_update (fun s => rfl)

theorem updateTokenUsage_stable (st : Store) (sid : String) (usage : Option Usage)
    (now : Nat) : stableView (updateTokenUsage st sid usage now) = stableView st := by
  unfold updateTokenUsage
  split
  · exact stableView_update (fun s => rfl)
  · rfl

theorem completeTool_stable (cfg : Config) (st : Store) (sid toolName status : String)
    (details : Details) (now : Nat) :
    stableView (completeTool cfg st sid toolName status details now) = stableView st := by
  unfold completeTool
  split
  · rfl
  · split
    · rfl
    · exact stableView_update (fun s => rfl)

theorem startTool_stable {cfg : Config} {st : Store} {sid toolName : String}
    {details : Details} {now : Nat} (h : (st.lookup sid).isSome = true) :
    stableView (startTool cfg st sid toolName details now) = stableView st := by
  obtain ⟨s, hl⟩ := Option.isSome_iff_exists.mp h
  unfold startTool
  dsimp only
  rw [getOrCreate_existing now hl]
  refine Eq.trans (stableView_update (fun s => rfl)) ?_
  split
  · split
    · split
      · exact Eq.trans (completeTool_stable cfg _ sid _ "completed" [] now)
          (stableView_update (fun s => rfl))
      · exact stableView_update (fun s => rfl)
    · exact stableView_update (fun s => rfl)
  · exact stableView_update (fun s => rfl)

theorem handleToolUse_stable {cfg : Config} {sid : String} {toolUse : ContentBlock}
    {ts : Option String} {now : Nat} {st : Store}
    (h : (st.lookup sid).isSome = true) :
    stableView (handleToolUse cfg sid toolUse ts now st) = stableView st := by
  unfold handleToolUse
  exact startTool_stable h

theorem completeSession_stable (cfg : Config) (st : Store) (sid : String) (now : Nat) :
    stableView (completeSession cfg st sid now) = stableView st := by
  unfold completeSession
  split
  · rfl
  · dsimp only
    refine Eq.trans (stableView_update (fun s => rfl)) ?_
    split
    · split
      · exact completeTool_stable cfg st sid _ "completed" [] now
      · rfl
    · rfl

theorem handleToolResult_stable (cfg : Config) (sid : String) (data : Record)
    (now : Nat) (st : Store) :
    stableView (handleToolResult cfg sid data now st) = stableView st := by
  unfold handleToolResult
  split
  · split
    · exact completeTool_stable cfg st sid _ _ [] now
    · rfl
  · rfl

theorem updateCwd_stable {st : Store} {sid c : String} {now : Nat}
    (hnd : (st.sessions.map Prod.fst).Nodup)
    (h : ∃ s, st.lookup sid = some s ∧ s.cwd.isSome = true) :
    stableView (updateCwd st sid c now) = stableView st := by
  obtain ⟨s, hl, hc⟩ := h
  unfold updateCwd
  dsimp only
  rw [getOrCreate_existing now hl]
  have hnd2 : (((st.update sid (fun s => { s with lastActivity := now })).sessions.map
      Prod.fst)).Nodup := by
    rw [keys_update]
    exact hnd
  have hl2 : (st.update sid (fun s => { s with lastActivity := now })).lookup sid
      = some { s with lastActivity := now } := by
    rw [lookup_update_self, hl]
    rfl
  have hf : ((fun (s : Session) => if c ≠ "" ∧ s.cwd = none then { s with cwd := some c } else s)
      { s with lastActivity := now }).stable
        = ({ s with lastActivity := now } : Session).stable := by
    dsimp only
    rw [if_neg (fun hcc => by
      have h2 : s.cwd = none := hcc.2
      rw [h2] at hc
      simp at hc)]
  exact Eq.trans (stableView_update_pt hnd2 hl2 hf) (stableView_update (fun s => rfl))

theorem updateGitBranch_stable {st : Store} {sid b : String} {now : Nat}
    (hnd : (st.sessions.map Prod.fst).Nodup)
    (h : ∃ s, st.lookup sid = some s ∧ s.gitBranch.isSome = true) :
    stableView (updateGitBranch st sid b now) = stableView st := by
  obtain ⟨s, hl, hc⟩ := h
  unfold updateGitBranch
  dsimp only
  rw [getOrCreate_existing now hl]
  have hnd2 : (((st.update sid (fun s => { s with lastActivity := now })).sessions.map
      Prod.fst)).Nodup := by
    rw [keys_update]
    exact hnd
  have hl2 : (st.update sid (fun s => { s with lastActivity := now })).lookup sid
      = some { s with lastActivity := now } := by
    rw [lookup_update_self, hl]
    rfl
  have hf : ((fun (s : Session) => if b ≠ "" ∧ s.gitBranch = none then
      { s with gitBranch := some b } else s) { s with lastActivity := now }).stable
        = ({ s with lastActivity := now } : Session).stable := by
    dsimp only
    rw [if_neg (fun hcc => by
      have h2 : s.gitBranch = none := hcc.2
      rw [h2] at hc
      simp at hc)]
  exact Eq.trans (stableView_update_pt hnd2 hl2 hf) (stableView_update (fun s => rfl))

theorem updateModelInfo_stable {st : Store} {sid model : String}
    {version : Option String} {now : Nat}
    (hnd : (st.sessions.map Prod.fst).Nodup)
    (h : ∃ s, st.lookup sid = some s ∧ s.model.isSome = true ∧
          (truthyS version = true → s.version.isSome = true)) :
    stableView (updateModelInfo st sid model version now) = stableView st := by
  obtain ⟨s, hl, hmod, hver⟩ := h
  unfold updateModelInfo
  dsimp only
  rw [getOrCreate_existing now hl]
  have hnd2 : (((st.update sid (fun s => { s with lastActivity := now })).sessions.map
      Prod.fst)).Nodup := by
    rw [keys_update]
    exact hnd
  have hl2 : (st.update sid (fun s => { s with lastActivity := now })).lookup sid
      = some { s with lastActivity := now } := by
    rw [lookup_update_self, hl]
    rfl
  have hin : ¬(model ≠ "" ∧ ({ s with lastActivity := now } : Session).model = none) := by
    rintro ⟨-, h2⟩
    have h3 : s.model = none := h2
    rw [h3] at hmod
    simp at hmod
  have hf : ((fun (s : Session) =>
      let s := if model ≠ "" ∧ s.model = none then
          { s with model := some model, modelShort := parseModelName model }
        else s
      if (version.getD "") ≠ "" ∧ s.version = none then
        { s with version := version } else s) { s with lastActivity := now }).stable
        = ({ s with lastActivity := now } : Session).stable := by
    dsimp only
    rw [if_neg hin]
    rw [if_neg (fun hvc => by
      have h2 : s.version = none := hvc.2
      have h3 : truthyS version = true := decide_eq_true hvc.1
      rw [h2] at hver
      have h4 := hver h3
      simp at h4)]
  exact Eq.trans (stableView_update_pt hnd2 hl2 hf) (stableView_update (fun s => rfl))

theorem blocksFold_stable (cfg : Config) (sid : String) (ts : Option String)
    (now : Nat) :
    ∀ (bs : List ContentBlock) (st : Store),
      ((∃ b ∈ bs, b.btype = "tool_use") → (st.lookup sid).isSome = true) →
      stableView (bs.foldl (fun st block =>
          if block.btype = "text" ∧ truthyS block.text then
            addMessage cfg st sid "assistant" (block.text.getD "") ts now
          else if block.btype = "tool_use" then
            handleToolUse cfg sid block ts now st
          else st) st) = stableView st := by
  intro bs
  induction bs with
  | nil => intro st _; rfl
  | cons x xs ih =>
    intro st h
    rw [List.foldl_cons]
    by_cases h1 : x.btype = "text" ∧ truthyS x.text = true
    · rw [if_pos h1]
      refine Eq.trans (ih _ ?_) (addMessage_stable cfg st sid "assistant" _ ts now)
      intro hex
      obtain ⟨b, hb, hbt⟩ := hex
      exact monoLe_isSome (monoLe_addMessage cfg st sid "assistant" _ ts now)
        (h ⟨b, List.mem_cons_of_mem x hb, hbt⟩)
    · rw [if_neg h1]
      by_cases h2 : x.btype = "tool_use"
      · rw [if_pos h2]
        have hsome : (st.lookup sid).isSome = true := h ⟨x, List.mem_cons_self x xs, h2⟩
        refine Eq.trans (ih _ ?_) (handleToolUse_stable hsome)
        intro hex
        exact handleToolUse_isSome cfg sid x ts now st
      · rw [if_neg h2]
        refine ih _ (fun hex => ?_)
        obtain ⟨b, hb, hbt⟩ := hex
        exact h ⟨b, List.mem_cons_of_mem x hb, hbt⟩

theorem handleUserMessage_stable {cfg : Config} {sid : String} {data : Record}
    {now : Nat} {st : Store}
    (h5 : ∀ c, data.message.bind RecMessage.content = some (MsgContent.str c) →
        c.trim ≠ "" → c ≠ "Warmup" → (st.lookup sid).isSome = true) :
    stableView (handleUserMessage cfg sid data now st) = stableView st := by
  unfold handleUserMessage
  split
  · rename_i c hc
    split
    · rename_i hcond
      exact Eq.trans (addMessage_stable cfg _ sid "user" c data.timestamp now)
        (updateSessionPrompt_stable st sid _ now (h5 c hc hcond.1 hcond.2))
    · rfl
  · rfl

theorem assistantUsageStep_stable (sid : String) (data : Record) (now : Nat)
    (st : Store) : stableView (assistantUsageStep sid data now st) = stableView st := by
  unfold assistantUsageStep
  split
  · split
    · exact updateTokenUsage_stable st sid _ now
    · rfl
  · rfl

theorem handleAssistantMessage_stable {cfg : Config} {sid : String} {data : Record}
    {ts : Option String} {now : Nat} {st : Store}
    (hnd : (st.sessions.map Prod.fst).Nodup)
    (h4 : ∀ m, data.message = some m → truthyS m.model = true →
        ∃ s, st.lookup sid = some s ∧ s.model.isSome = true ∧
          (truthyS data.version = true → s.version.isSome = true))
    (h6 : ∀ bs, data.message.bind RecMessage.content = some (MsgContent.blocks bs) →
        (∃ b ∈ bs, b.btype = "tool_use") → (st.lookup sid).isSome = true) :
    stableView (handleAssistantMessage cfg sid data ts now st) = stableView st := by
  unfold handleAssistantMessage
  have hmodel : stableView (assistantModelStep sid data now st) = stableView st := by
    unfold assistantModelStep
    split
    · rename_i m hm
      split
      · rename_i hmod
        exact updateModelInfo_stable hnd (h4 m hm hmod)
      · rfl
    · rfl
  have hmono1 := monoLe_assistantModelStep sid data now st
  have husage := assistantUsageStep_stable sid data now (assistantModelStep sid data now st)
  have hmono2 := monoLe_assistantUsageStep sid data now (assistantModelStep sid data now st)
  have hblocks : stableView (assistantBlocksStep cfg sid data ts now
      (assistantUsageStep sid data now (assistantModelStep sid data now st)))
        = stableView (assistantUsageStep sid data now
            (assistantModelStep sid data now st)) := by
    unfold assistantBlocksStep
    split
    · rename_i bs hbs
      exact blocksFold_stable cfg sid ts now bs _ (fun hex =>
        monoLe_isSome (monoLe_trans hmono1 hmono2) (h6 bs hbs hex))
    · rfl
  exact Eq.trans hblocks (Eq.trans husage hmodel)

theorem pmMeta_stable {eff : String} {data : Record} {now : Nat} {st : Store}
    (hnd : (st.sessions.map Prod.fst).Nodup)
    (h2 : truthyS data.cwd = true →
        ∃ s, st.lookup eff = some s ∧ s.cwd.isSome = true)
    (h3 : truthyS data.gitBranch = true →
        ∃ s, st.lookup eff = some s ∧ s.gitBranch.isSome = true) :
    stableView (pmMeta eff data now st) = stableView st := by
  have hX : stableView (if truthyS data.cwd then updateCwd st eff (data.cwd.getD "") now
      else st) = stableView st := by
    split
    · rename_i hc
      exact updateCwd_stable hnd (h2 hc)
    · rfl
  have hmX : MonoLe st (if truthyS data.cwd then updateCwd st eff (data.cwd.getD "") now
      else st) := by
    split
    · exact monoLe_updateCwd st eff _ now
    · exact monoLe_refl st
  have hndX : (((if truthyS data.cwd then updateCwd st eff (data.cwd.getD "") now
      else st)).sessions.map Prod.fst).Nodup := by
    rw [keys_eq_of_stableView_eq hX]
    exact hnd
  unfold pmMeta
  dsimp only
  split
  · rename_i hg
    exact Eq.trans (updateGitBranch_stable hndX (gitPost_mono hmX (h3 hg))) hX
  · exact hX

theorem pmDispatch_stable {cfg : Config} {eff : String} {data : Record} {now : Nat}
    {st : Store} (hnd : (st.sessions.map Prod.fst).Nodup)
    (h4 : data.rtype.getD "" = "assistant" →
      ∀ m, data.message = some m → truthyS m.model = true →
        ∃ s, st.lookup eff = some s ∧ s.model.isSome = true ∧
          (truthyS data.version = true → s.version.isSome = true))
    (h5 : data.rtype.getD "" = "user" →
      ∀ c, data.message.bind RecMessage.content = some (MsgContent.str c) →
        c.trim ≠ "" → c ≠ "Warmup" → (st.lookup eff).isSome = true)
    (h6 : data.rtype.getD "" = "assistant" →
      ∀ bs, data.message.bind RecMessage.content = some (MsgContent.blocks bs) →
        (∃ b ∈ bs, b.btype = "tool_use") → (st.lookup eff).isSome = true)
    (h7 : data.rtype.getD "" = "queue-operation" → data.operation.getD "" = "dequeue" →
      (st.lookup eff).isSome = true) :
    stableView (pmDispatch cfg eff data now st) = stableView st := by
  unfold pmDispatch
  split
  · rename_i hr
    exact handleUserMessage_stable (h5 hr)
  · rename_i hr
    exact handleAssistantMessage_stable hnd (h4 hr) (h6 hr)
  · exact handleToolResult_stable cfg eff data now st
  · exact completeSession_stable cfg st eff now
  · rename_i hr
    split
    · rename_i hdq
      exact getOrCreate_stable (h7 hr hdq)
    · rfl
  · rfl

theorem processMessage_stable (cfg : Config) (data : Record) (path : String)
    (n : Nat) (st : Store) (hnd : (st.sessions.map Prod.fst).Nodup)
    (hsat : Saturated data path st) :
    stableView (processMessage cfg data path n st) = stableView st := by
  unfold processMessage
  by_cases he : effId data path = ""
  · rw [if_pos he]
  · rw [if_neg he]
    obtain ⟨h1, h2, h3, h4, h5, h6, h7⟩ := hsat.resolve_left he
    have hps : pmSubAgent data (isSubRec data path) n st = st := by
      unfold pmSubAgent
      split
      · rename_i hc
        exact createSubAgent_existing (h1 hc)
      · rfl
    rw [hps]
    have hmeta : stableView (pmMeta (effId data path) data n st) = stableView st :=
      pmMeta_stable hnd h2 h3
    have hmono := monoLe_pmMeta (effId data path) data n st
    have hnd2 : (((pmMeta (effId data path) data n st)).sessions.map Prod.fst).Nodup := by
      rw [keys_eq_of_stableView_eq hmeta]
      exact hnd
    have hdisp : stableView (pmDispatch cfg (effId data path) data n
        (pmMeta (effId data path) data n st))
          = stableView (pmMeta (effId data path) data n st) :=
      pmDispatch_stable hnd2
        (fun ha m hm hmod => modelPost_mono hmono (h4 ha m hm hmod))
        (fun hu c hc ht hw => monoLe_isSome hmono (h5 hu c hc ht hw))
        (fun ha bs hbs hex => monoLe_isSome hmono (h6 ha bs hbs hex))
        (fun hq hd => monoLe_isSome hmono (h7 hq hd))
    exact Eq.trans hdisp hmeta

theorem processRecords_stable (cfg : Config) (path : String) :
    ∀ (recs : List (Record × Nat)) (st : Store),
      (st.sessions.map Prod.fst).Nodup →
      (∀ rn ∈ recs, Saturated rn.1 path st) →
      stableView (processRecords cfg path st recs) = stableView st := by
  intro recs
  induction recs with
  | nil => intro st _ _; rfl
  | cons x xs ih =>
    intro st hnd hsat
    rw [processRecords_cons]
    have hx : stableView (processMessage cfg x.1 path x.2 st) = stableView st :=
      processMessage_stable cfg x.1 path x.2 st hnd (hsat x (List.mem_cons_self x xs))
    have hnd2 : (((processMessage cfg x.1 path x.2 st)).sessions.map Prod.fst).Nodup := by
      rw [keys_eq_of_stableView_eq hx]
      exact hnd
    have hsat2 : ∀ rn ∈ xs, Saturated rn.1 path (processMessage cfg x.1 path x.2 st) :=
      fun rn h => saturated_mono (hsat rn (List.mem_cons_of_mem x h))
        (monoLe_processMessage cfg x.1 path x.2 st)
    exact Eq.trans (ih _ hnd2 hsat2) hx

theorem inv_processRecords {cfg : Config} (path : String) (hm : 1 ≤ cfg.maxMessages) :
    ∀ (recs : List (Record × Nat)) (st : Store), StoreInv cfg strong st →
      StoreInv cfg strong (processRecords cfg path st recs) := by
  intro recs
  induction recs with
  | nil => intro st h; exact h
  | cons x xs ih =>
    intro st h
    rw [processRecords_cons]
    exact ih _ (inv_processMessage x.1 path x.2 hm h)

/-- C2 counterexample: replay is NOT idempotent on the token counters.
    Processing a dequeue record (which creates session "s") followed by an
    assistant record with `usage = {input_tokens: 1, output_tokens: 2}` once
    yields `tokens.total = 3`; replaying the same two records doubles the
    cumulative counters (`updateTokenUsage` uses `+=`), yielding 6 — a
    difference in a field other than `lastActivity`. -/
theorem C2_counterexample :
    ((processRecords {} c2path (processRecords {} c2path {} c2recs) c2recs).lookup
        "s").map (fun s => s.tokens.total)
      ≠ ((processRecords {} c2path {} c2recs).lookup "s").map
          (fun s => s.tokens.total) := by
  decide

/-- C2 (amended): full replay is idempotent only on the replay-stable
    projection of the store.  For any record sequence and any clock values,
    processing the same records a second time (with arbitrary new clocks)
    leaves every session's identity, `startTime`, set-once metadata (`model`,
    `modelShort`, `cwd`, `version`, `gitBranch`) and sub-agent linkage
    (`parentSessionId`, `agentId`, `subAgents`, `isSubAgent`) unchanged — and
    does not create or delete sessions.  The cumulative fields (`tokens`,
    `estimatedCost`), `messages`, `toolHistory`, `currentTool`, `status`,
    `prompt`, `todos` and `lastActivity` are not preserved in general (see the
    counterexample).  The starting store satisfies the engine invariant
    (e.g. the empty store), and the message cap is at least 1, which
    `parseInt(env) || 20` guarantees. -/
theorem C2_replay_stable (cfg : Config) (path : String)
    (recs1 recs2 : List (Record × Nat)) (hm : 1 ≤ cfg.maxMessages)
    (hsame : recs1.map Prod.fst = recs2.map Prod.fst)
    (st : Store) (hinv : StoreInv cfg false st) :
    stableView (processRecords cfg path (processRecords cfg path st recs1) recs2)
      = stableView (processRecords cfg path st recs1) := by
  have hinv1 : StoreInv cfg false (processRecords cfg path st recs1) :=
    inv_processRecords path hm recs1 st hinv
  apply processRecords_stable
  · exact hinv1.1
  · intro rn hrn
    have hmem : rn.1 ∈ recs1.map Prod.fst := by
      rw [hsame]
      exact List.mem_map_of_mem Prod.fst hrn
    obtain ⟨rm, hrm, hfst⟩ := List.mem_map.mp hmem
    have hsat := processRecords_saturates cfg path recs1 st rm hrm
    rw [hfst] at hsat
    exact hsat

/-- Witness for the amended C2: replaying the two-record sequence of the
    counterexample leaves the stable projection unchanged. -/
theorem C2_replay_stable_witness :
    stableView (processRecords {} c2path (processRecords {} c2path {} c2recs) c2recs)
      = stableView (processRecords {} c2path {} c2recs) :=
  C2_replay_stable {} c2path c2recs c2recs (by decide) rfl {}
    ⟨List.nodup_nil, fun p hp => absurd hp (List.not_mem_nil p)⟩
